import Mathlib

/-!
Verification of the ComEXE core against its specification.

This file gives a shallow embedding, in Lean 4, of the parts of the ComEXE
repository that the specification claims talk about:

* `src/trivial-queue-uint.c` — the circular free-offset queue (`TQU_*`);
* `src/trivial-array.c` — the stable-index registry (`TA_*`);
* `src/bump-allocator.c` — the bump-style tagged blob store (`BA_*`),
  modelled at byte granularity;
* `src/lua-application.c` — the event codec, producers, consumer, the
  event-loop state bits and the callback installers (`APP_*`, `LUA_*`,
  `SERVICE_NotifyInstance`).

Modelling conventions, used throughout:

* machine integers are `Nat` / `Int`; where C performs a narrowing or
  signed-to-unsigned conversion the reduction modulo `2 ^ width` is explicit;
* pointers into the blob-store byte region are modelled as offsets from the
  region base (the base returned by the platform allocator is at least
  8-byte aligned, so alignment arithmetic on addresses coincides with
  alignment arithmetic on offsets, and the pointer-rebasing loop of
  `BA_ExpandStorage`, which adds the move delta `NewStorage - DataStore`
  to every live pointer, is the identity on offsets);
* fallible code returns `Option` / `Except`; a `none` outcome stands for a
  process-terminating path (`exit(...)`) or for behaviour the C source
  leaves undetermined (reading an uninitialised local, reading a union
  member through the wrong variant);
* mutex acquisitions are recorded as explicit action traces so that the
  temporal claims about lock ordering become statements about those traces.
-/

/-============================================================================-/
/- Byte-level helpers for the bump allocator                                  -/
/-============================================================================-/

/-- Little-endian byte decomposition of a natural number into `w` bytes.
This is the object representation that the typed `BA_Push*` stores write
through `*((T *)BlobStart) = Value` on a little-endian machine. -/
def natToBytesLE : Nat → Nat → List Nat
  | 0, _ => []
  | w + 1, v => v % 256 :: natToBytesLE w (v / 256)

/-- Little-endian recomposition of a byte list into a natural number,
the inverse reading performed by the typed `BA_Get*` accessors. -/
def bytesToNatLE : List Nat → Nat
  | [] => 0
  | b :: bs => b % 256 + 256 * bytesToNatLE bs

theorem natToBytesLE_length (w v : Nat) : (natToBytesLE w v).length = w := by
  induction w generalizing v with
  | zero => rfl
  | succ w ih => simp [natToBytesLE, ih]

theorem bytesToNatLE_natToBytesLE (w v : Nat) :
    bytesToNatLE (natToBytesLE w v) = v % 2 ^ (8 * w) := by
  induction w generalizing v with
  | zero => simp [natToBytesLE, bytesToNatLE, Nat.mod_one]
  | succ w ih =>
    have h256 : (0:Nat) < 256 := by norm_num
    have hsplit : v % (256 * 2 ^ (8 * w)) = v % 256 + 256 * (v / 256 % 2 ^ (8 * w)) :=
      Nat.mod_mul
    have hpow : (2:Nat) ^ (8 * (w + 1)) = 256 * 2 ^ (8 * w) := by
      rw [Nat.mul_succ, pow_add]; ring
    simp [natToBytesLE, bytesToNatLE, ih, hpow, hsplit, Nat.mod_mod_of_dvd]

/-- Object representation of an `int32_t` value (two's complement,
little-endian). -/
def int32ToBytes (v : Int) : List Nat := natToBytesLE 4 (v % 2 ^ 32).toNat

/-- Reading four bytes back as an `int32_t`. -/
def bytesToInt32 (bs : List Nat) : Int :=
  let n := bytesToNatLE bs
  if n < 2 ^ 31 then (n : Int) else (n : Int) - 2 ^ 32

/-- Object representation of an `int64_t` value. -/
def int64ToBytes (v : Int) : List Nat := natToBytesLE 8 (v % 2 ^ 64).toNat

/-- Reading eight bytes back as an `int64_t`. -/
def bytesToInt64 (bs : List Nat) : Int :=
  let n := bytesToNatLE bs
  if n < 2 ^ 63 then (n : Int) else (n : Int) - 2 ^ 64

theorem bytesToInt32_int32ToBytes (v : Int) (h1 : -2 ^ 31 ≤ v) (h2 : v < 2 ^ 31) :
    bytesToInt32 (int32ToBytes v) = v := by
  unfold bytesToInt32 int32ToBytes
  rw [bytesToNatLE_natToBytesLE]
  have hlt : v % 2 ^ 32 < 2 ^ 32 := Int.emod_lt_of_pos v (by norm_num)
  have hle : 0 ≤ v % 2 ^ 32 := Int.emod_nonneg v (by norm_num)
  have htn : ((v % 2 ^ 32).toNat : Int) = v % 2 ^ 32 := Int.toNat_of_nonneg hle
  have hmod : (v % 2 ^ 32).toNat % 2 ^ (8 * 4) = (v % 2 ^ 32).toNat := by
    apply Nat.mod_eq_of_lt
    have : ((v % 2 ^ 32).toNat : Int) < 2 ^ 32 := by rw [htn]; exact hlt
    exact_mod_cast this
  rw [hmod]
  rcases le_or_lt 0 v with hv | hv
  · have hveq : v % 2 ^ 32 = v := Int.emod_eq_of_lt hv (by omega)
    have : (v % 2 ^ 32).toNat < 2 ^ 31 := by omega
    simp only [if_pos this]
    omega
  · have hveq : v % 2 ^ 32 = v + 2 ^ 32 := by
      have : (v + 2 ^ 32) % 2 ^ 32 = v % 2 ^ 32 := by
        simp
      rw [← this]
      exact Int.emod_eq_of_lt (by omega) (by omega)
    have : ¬ (v % 2 ^ 32).toNat < 2 ^ 31 := by omega
    simp only [if_neg this]
    omega

theorem bytesToInt64_int64ToBytes (v : Int) (h1 : -2 ^ 63 ≤ v) (h2 : v < 2 ^ 63) :
    bytesToInt64 (int64ToBytes v) = v := by
  unfold bytesToInt64 int64ToBytes
  rw [bytesToNatLE_natToBytesLE]
  have hlt : v % 2 ^ 64 < 2 ^ 64 := Int.emod_lt_of_pos v (by norm_num)
  have hle : 0 ≤ v % 2 ^ 64 := Int.emod_nonneg v (by norm_num)
  have htn : ((v % 2 ^ 64).toNat : Int) = v % 2 ^ 64 := Int.toNat_of_nonneg hle
  have hmod : (v % 2 ^ 64).toNat % 2 ^ (8 * 8) = (v % 2 ^ 64).toNat := by
    apply Nat.mod_eq_of_lt
    have : ((v % 2 ^ 64).toNat : Int) < 2 ^ 64 := by rw [htn]; exact hlt
    exact_mod_cast this
  rw [hmod]
  rcases le_or_lt 0 v with hv | hv
  · have hveq : v % 2 ^ 64 = v := Int.emod_eq_of_lt hv (by omega)
    have : (v % 2 ^ 64).toNat < 2 ^ 63 := by omega
    simp only [if_pos this]
    omega
  · have hveq : v % 2 ^ 64 = v + 2 ^ 64 := by
      have : (v + 2 ^ 64) % 2 ^ 64 = v % 2 ^ 64 := by
        simp
      rw [← this]
      exact Int.emod_eq_of_lt (by omega) (by omega)
    have : ¬ (v % 2 ^ 64).toNat < 2 ^ 63 := by omega
    simp only [if_neg this]
    omega

/-- Write a list of bytes into the byte region (a function from offsets to
byte values) starting at offset `pos`; this models `memcpy` into the region. -/
def writeBytes (store : Nat → Nat) (pos : Nat) : List Nat → (Nat → Nat)
  | [] => store
  | b :: bs => writeBytes (fun i => if i = pos then b else store i) (pos + 1) bs

/-- Read `n` bytes from the byte region starting at offset `pos`. -/
def readBytes (store : Nat → Nat) (pos n : Nat) : List Nat :=
  (List.range n).map fun i => store (pos + i)

theorem writeBytes_apply_of_lt (store : Nat → Nat) (bs : List Nat) (pos i : Nat)
    (h : i < pos) : writeBytes store pos bs i = store i := by
  induction bs generalizing store pos with
  | nil => rfl
  | cons b bs ih =>
    rw [writeBytes, ih _ _ (by omega)]
    simp [Nat.ne_of_lt h]

theorem readBytes_writeBytes_of_le (store : Nat → Nat) (bs : List Nat)
    (pos n q : Nat) (h : pos + n ≤ q) :
    readBytes (writeBytes store q bs) pos n = readBytes store pos n := by
  unfold readBytes
  apply List.map_congr_left
  intro i hi
  have : pos + i < q := by
    have := List.mem_range.mp hi
    omega
  exact writeBytes_apply_of_lt store bs q (pos + i) this

theorem readBytes_writeBytes_self (store : Nat → Nat) (bs : List Nat) (pos : Nat) :
    readBytes (writeBytes store pos bs) pos bs.length = bs := by
  induction bs generalizing store pos with
  | nil => rfl
  | cons b bs ih =>
    have hhead : writeBytes (fun i => if i = pos then b else store i) (pos + 1) bs pos = b := by
      rw [writeBytes_apply_of_lt _ _ _ _ (by omega)]
      simp
    have htail : readBytes (writeBytes (fun i => if i = pos then b else store i) (pos + 1) bs)
        (pos + 1) bs.length = bs := ih _ _
    unfold readBytes at htail ⊢
    rw [List.length_cons, List.range_succ_eq_map]
    simp only [List.map_cons, List.map_map]
    rw [writeBytes, List.cons_eq_cons]
    constructor
    · simpa using hhead
    · refine Eq.trans ?_ htail
      apply List.map_congr_left
      intro i _
      simp [Function.comp, Nat.add_assoc, Nat.add_comm 1 i]

theorem readBytes_length (store : Nat → Nat) (pos n : Nat) :
    (readBytes store pos n).length = n := by
  simp [readBytes]

theorem readBytes_congr (s1 s2 : Nat → Nat) (pos n : Nat)
    (h : ∀ i, i < pos + n → s1 i = s2 i) :
    readBytes s1 pos n = readBytes s2 pos n := by
  unfold readBytes
  apply List.map_congr_left
  intro i hi
  exact h (pos + i) (by have := List.mem_range.mp hi; omega)

/-============================================================================-/
/- Bump allocator (src/bump-allocator.c)                                      -/
/-============================================================================-/

/-- State of `struct BA_Allocator`. `DataStore` is the byte region, indexed by
offsets from the region base; `NextFreePosition` and the entries of
`BlobPointers` are offsets into that region (`none` models a `NULL` pointer,
the calloc default of a slot that was never assigned). -/
structure BA_Allocator where
  DataStore : Nat → Nat
  StoreSizeInBytes : Nat
  StoreFreeSizeInBytes : Nat
  BlobCount : Nat
  MaxBlobCount : Nat
  UsedBlobCount : Nat
  NextFreePosition : Nat
  BlobSizesInBytes : Nat → Nat
  BlobPointers : Nat → Option Nat

/-- Fuel-driven doubling loop `while (PowerValue < Value) PowerValue *= 2`
from `BA_NearestPowerOf2`; `Value` iterations of fuel always suffice because
the running value starts at 1 and at least doubles each step. -/
def BA_NP2Loop : Nat → Nat → Nat → Nat
  | 0, PowerValue, _ => PowerValue
  | fuel + 1, PowerValue, Value =>
      if PowerValue < Value then BA_NP2Loop fuel (PowerValue * 2) Value else PowerValue

/-- Port of `BA_NearestPowerOf2`. -/
def BA_NearestPowerOf2 (Value : Nat) : Nat := BA_NP2Loop Value 1 Value

/-- Port of `BA_CalculateNewKey`: keys are 1-based and sequential. -/
def BA_CalculateNewKey (Allocator : BA_Allocator) : Nat :=
  Allocator.BlobCount + 1

/-- Port of `BA_IsKeyValid`. -/
def BA_IsKeyValid (Allocator : BA_Allocator) (Key : Nat) : Bool :=
  Key != 0 && Key ≤ Allocator.BlobCount

/-- Port of `BA_DoubleKeyArea`: both parallel index arrays are reallocated at
double the entry count; the first `CurrentMaxCount = MaxBlobCount + 1` entries
(index 0 is the dummy) are copied over, the rest are zero-initialised. -/
def BA_DoubleKeyArea (Allocator : BA_Allocator) : BA_Allocator :=
  let CurrentMaxCount := Allocator.MaxBlobCount + 1
  let NewMaxCount := CurrentMaxCount * 2
  { Allocator with
    BlobSizesInBytes := fun k => if k < CurrentMaxCount then Allocator.BlobSizesInBytes k else 0,
    BlobPointers := fun k => if k < CurrentMaxCount then Allocator.BlobPointers k else none,
    MaxBlobCount := NewMaxCount - 1 }

/-- Port of `BA_ExpandStorage`: a fresh zeroed region of `NewDataSizeInByte`
bytes is allocated, the used prefix is copied into it, and every live blob
pointer is rebased by the move delta.  Since pointers are modelled as offsets
from the region base, the rebasing loop and the `NextFreePosition` update
leave the recorded offsets unchanged. -/
def BA_ExpandStorage (Allocator : BA_Allocator) (NewDataSizeInByte : Nat) : BA_Allocator :=
  let UsedSizeInByte := Allocator.StoreSizeInBytes - Allocator.StoreFreeSizeInBytes
  { Allocator with
    DataStore := fun i => if i < UsedSizeInByte then Allocator.DataStore i else 0,
    StoreSizeInBytes := NewDataSizeInByte,
    StoreFreeSizeInBytes := NewDataSizeInByte - UsedSizeInByte }

/-- Fuel-driven port of the doubling loop in `BA_ExpandMemoryIfNeeded`:
starting from `Cur = StoreSizeInBytes * 2`, keep doubling while the value is
below `Target = StoreSizeInBytes + BlobSizeInByte`.  `Target` iterations of
fuel always suffice because the running value is positive. -/
def BA_GrowLoop : Nat → Nat → Nat → Nat
  | 0, Cur, _ => Cur
  | fuel + 1, Cur, Target =>
      if Cur < Target then BA_GrowLoop fuel (Cur * 2) Target else Cur

/-- Port of `BA_ExpandMemoryIfNeeded`. -/
def BA_ExpandMemoryIfNeeded (Allocator : BA_Allocator) (BlobSizeInByte : Nat) : BA_Allocator :=
  let a1 :=
    if BlobSizeInByte > Allocator.StoreFreeSizeInBytes then
      let Target := Allocator.StoreSizeInBytes + BlobSizeInByte
      BA_ExpandStorage Allocator (BA_GrowLoop Target (Allocator.StoreSizeInBytes * 2) Target)
    else Allocator
  if a1.BlobCount ≥ a1.MaxBlobCount then BA_DoubleKeyArea a1 else a1

/-- Port of `BA_AllocateBlob`.  Returns the updated allocator, the new key,
and the blob start offset (the `*BlobStart` out-parameter).  The alignment
padding is computed from the current cursor before any expansion, exactly as
in the C source; expansion does not change the cursor offset. -/
def BA_AllocateBlob (Allocator : BA_Allocator) (SizeInByte : Nat) :
    BA_Allocator × Nat × Nat :=
  let AlignmentPadding := (8 - Allocator.NextFreePosition % 8) % 8
  let RealSizeInByte := SizeInByte + AlignmentPadding
  let a := BA_ExpandMemoryIfNeeded Allocator RealSizeInByte
  let BlobStart := a.NextFreePosition + AlignmentPadding
  let NewKey := BA_CalculateNewKey a
  ({ a with
     BlobPointers := fun k => if k = NewKey then some BlobStart else a.BlobPointers k,
     BlobSizesInBytes := fun k => if k = NewKey then SizeInByte else a.BlobSizesInBytes k,
     NextFreePosition := BlobStart + SizeInByte,
     BlobCount := a.BlobCount + 1,
     UsedBlobCount := a.UsedBlobCount + 1,
     StoreFreeSizeInBytes := a.StoreFreeSizeInBytes - RealSizeInByte },
   NewKey, BlobStart)

/-- Port of `BA_PushBlob`: allocate and `memcpy` the bytes into the region.
The requested size is the length of the copied byte list. -/
def BA_PushBlob (Allocator : BA_Allocator) (Memory : List Nat) : BA_Allocator × Nat :=
  let r := BA_AllocateBlob Allocator Memory.length
  let a := r.1
  let NewKey := r.2.1
  let BlobStart := r.2.2
  ({ a with DataStore := writeBytes a.DataStore BlobStart Memory }, NewKey)

/-- Port of `BA_PushInt32`: a four-byte allocation filled with the object
representation of the value. -/
def BA_PushInt32 (Allocator : BA_Allocator) (Value : Int) : BA_Allocator × Nat :=
  BA_PushBlob Allocator (int32ToBytes Value)

/-- Port of `BA_PushUint32`. -/
def BA_PushUint32 (Allocator : BA_Allocator) (Value : Nat) : BA_Allocator × Nat :=
  BA_PushBlob Allocator (natToBytesLE 4 (Value % 2 ^ 32))

/-- Port of `BA_PushInt64`. -/
def BA_PushInt64 (Allocator : BA_Allocator) (Value : Int) : BA_Allocator × Nat :=
  BA_PushBlob Allocator (int64ToBytes Value)

/-- Port of `BA_PushUint64`. -/
def BA_PushUint64 (Allocator : BA_Allocator) (Value : Nat) : BA_Allocator × Nat :=
  BA_PushBlob Allocator (natToBytesLE 8 (Value % 2 ^ 64))

/-- Port of `BA_PushDouble`.  A `double` is identified with its 64-bit object
representation (the claim under verification is about bitwise equality, which
is exactly equality of these bit patterns). -/
def BA_PushDouble (Allocator : BA_Allocator) (ValueBits : Nat) : BA_Allocator × Nat :=
  BA_PushBlob Allocator (natToBytesLE 8 (ValueBits % 2 ^ 64))

/-- Port of `BA_PushPointer`: the stored pointer is an opaque 64-bit value. -/
def BA_PushPointer (Allocator : BA_Allocator) (Pointer : Nat) : BA_Allocator × Nat :=
  BA_PushBlob Allocator (natToBytesLE 8 (Pointer % 2 ^ 64))

/-- Port of `BA_PushString`: the C string bytes (`String` has no interior
NUL byte by the semantics of `strlen`) plus the NUL terminator, so the
requested size is `strlen(String) + 1`. -/
def BA_PushString (Allocator : BA_Allocator) (String : List Nat) : BA_Allocator × Nat :=
  BA_PushBlob Allocator (String ++ [0])

/-- Port of `BA_NewAllocator`. -/
def BA_NewAllocator (InitialCount InitialSizeInByte : Nat) : BA_Allocator :=
  let PowerCount := BA_NearestPowerOf2 InitialCount
  let PowerSizeInBytes := BA_NearestPowerOf2 InitialSizeInByte
  { DataStore := fun _ => 0,
    StoreSizeInBytes := PowerSizeInBytes,
    StoreFreeSizeInBytes := PowerSizeInBytes,
    BlobCount := 0,
    MaxBlobCount := PowerCount - 1,
    UsedBlobCount := 0,
    NextFreePosition := 0,
    BlobSizesInBytes := fun _ => 0,
    BlobPointers := fun _ => none }

/-- Port of `BA_Reset`. -/
def BA_Reset (Allocator : BA_Allocator) : BA_Allocator :=
  { Allocator with
    BlobCount := 0,
    UsedBlobCount := 0,
    NextFreePosition := 0,
    StoreFreeSizeInBytes := Allocator.StoreSizeInBytes }

/-- Port of `BA_GetCount`. -/
def BA_GetCount (Allocator : BA_Allocator) : Nat :=
  Allocator.UsedBlobCount

/-- Port of `BA_GetBlob`: on a valid key it yields the stored pointer
(offset) and the recorded size, otherwise it fails. -/
def BA_GetBlob (Allocator : BA_Allocator) (Key : Nat) : Option (Nat × Nat) :=
  if BA_IsKeyValid Allocator Key then
    match Allocator.BlobPointers Key with
    | some p => some (p, Allocator.BlobSizesInBytes Key)
    | none => none
  else none

/-- The byte content of the blob behind a key: the recorded size worth of
bytes at the recorded offset.  This is the value a consumer of `BA_GetBlob`
reads through the returned pointer. -/
def BA_GetBlobBytes (Allocator : BA_Allocator) (Key : Nat) : Option (List Nat) :=
  (BA_GetBlob Allocator Key).map fun r => readBytes Allocator.DataStore r.1 r.2

/-- Port of `BA_GetInt32`: reads `sizeof(int32_t)` bytes through the stored
pointer of a valid key. -/
def BA_GetInt32 (Allocator : BA_Allocator) (Key : Nat) : Option Int :=
  if BA_IsKeyValid Allocator Key then
    (Allocator.BlobPointers Key).map fun p => bytesToInt32 (readBytes Allocator.DataStore p 4)
  else none

/-- Port of `BA_GetUint32`. -/
def BA_GetUint32 (Allocator : BA_Allocator) (Key : Nat) : Option Nat :=
  if BA_IsKeyValid Allocator Key then
    (Allocator.BlobPointers Key).map fun p => bytesToNatLE (readBytes Allocator.DataStore p 4)
  else none

/-- Port of `BA_GetInt64`. -/
def BA_GetInt64 (Allocator : BA_Allocator) (Key : Nat) : Option Int :=
  if BA_IsKeyValid Allocator Key then
    (Allocator.BlobPointers Key).map fun p => bytesToInt64 (readBytes Allocator.DataStore p 8)
  else none

/-- Port of `BA_GetUint64`. -/
def BA_GetUint64 (Allocator : BA_Allocator) (Key : Nat) : Option Nat :=
  if BA_IsKeyValid Allocator Key then
    (Allocator.BlobPointers Key).map fun p => bytesToNatLE (readBytes Allocator.DataStore p 8)
  else none

/-- Port of `BA_GetDouble` (values identified with their bit patterns). -/
def BA_GetDouble (Allocator : BA_Allocator) (Key : Nat) : Option Nat :=
  if BA_IsKeyValid Allocator Key then
    (Allocator.BlobPointers Key).map fun p => bytesToNatLE (readBytes Allocator.DataStore p 8)
  else none

/-- Port of `BA_GetPointer`. -/
def BA_GetPointer (Allocator : BA_Allocator) (Key : Nat) : Option Nat :=
  if BA_IsKeyValid Allocator Key then
    (Allocator.BlobPointers Key).map fun p => bytesToNatLE (readBytes Allocator.DataStore p 8)
  else none

/-- Port of `BA_GetString`: the returned `char *` is read as a C string, up
to the NUL terminator; the read stays inside the blob that was stored. -/
def BA_GetString (Allocator : BA_Allocator) (Key : Nat) : Option (List Nat) :=
  if BA_IsKeyValid Allocator Key then
    (Allocator.BlobPointers Key).map fun p =>
      (readBytes Allocator.DataStore p (Allocator.BlobSizesInBytes Key)).takeWhile (· ≠ 0)
  else none

/-- A stored slot is sound: the key has a pointer and the blob lies entirely
below the allocation cursor. -/
def BA_SlotOK (a : BA_Allocator) (k : Nat) : Bool :=
  match a.BlobPointers k with
  | some p => decide (p + a.BlobSizesInBytes k ≤ a.NextFreePosition)
  | none => false

/-- Well-formedness invariant of a blob store, established by
`BA_NewAllocator` and preserved by every push. -/
def BA_WF (a : BA_Allocator) : Prop :=
  1 ≤ a.StoreSizeInBytes ∧
  a.NextFreePosition ≤ a.StoreSizeInBytes ∧
  a.StoreFreeSizeInBytes = a.StoreSizeInBytes - a.NextFreePosition ∧
  a.BlobCount ≤ a.MaxBlobCount ∧
  ∀ k, k < a.BlobCount + 1 → 1 ≤ k → BA_SlotOK a k = true

instance (a : BA_Allocator) : Decidable (BA_WF a) := by
  unfold BA_WF
  infer_instance

theorem BA_GrowLoop_ge (fuel Cur Target : Nat) (h1 : 1 ≤ Cur) (h2 : Target ≤ Cur + fuel) :
    Target ≤ BA_GrowLoop fuel Cur Target := by
  induction fuel generalizing Cur with
  | zero => simpa [BA_GrowLoop] using h2
  | succ f ih =>
    rw [BA_GrowLoop]
    split
    · exact ih (Cur * 2) (by omega) (by omega)
    · omega

theorem BA_NP2Loop_pos (fuel PowerValue Value : Nat) (h : 1 ≤ PowerValue) :
    1 ≤ BA_NP2Loop fuel PowerValue Value := by
  induction fuel generalizing PowerValue with
  | zero => simpa [BA_NP2Loop] using h
  | succ f ih =>
    rw [BA_NP2Loop]
    split
    · exact ih _ (by omega)
    · omega

theorem BA_NearestPowerOf2_pos (Value : Nat) : 1 ≤ BA_NearestPowerOf2 Value :=
  BA_NP2Loop_pos Value 1 Value (by omega)

theorem BA_NewAllocator_WF (c s : Nat) : BA_WF (BA_NewAllocator c s) := by
  refine ⟨BA_NearestPowerOf2_pos s, by simp [BA_NewAllocator], by simp [BA_NewAllocator],
    by simp [BA_NewAllocator], ?_⟩
  intro k hk hk1
  simp [BA_NewAllocator] at hk
  omega

/-- Combined behaviour of `BA_ExpandMemoryIfNeeded` on a well-formed store:
the cursor, counts, live slots and used bytes are untouched; afterwards there
is room for `need` more bytes and a free key slot. -/
theorem BA_ExpandMemoryIfNeeded_spec (a : BA_Allocator) (need : Nat) (h : BA_WF a) :
    (BA_ExpandMemoryIfNeeded a need).NextFreePosition = a.NextFreePosition ∧
    (BA_ExpandMemoryIfNeeded a need).BlobCount = a.BlobCount ∧
    (BA_ExpandMemoryIfNeeded a need).UsedBlobCount = a.UsedBlobCount ∧
    (∀ k, 1 ≤ k → k ≤ a.BlobCount →
        (BA_ExpandMemoryIfNeeded a need).BlobPointers k = a.BlobPointers k ∧
        (BA_ExpandMemoryIfNeeded a need).BlobSizesInBytes k = a.BlobSizesInBytes k) ∧
    (∀ i, i < a.NextFreePosition → (BA_ExpandMemoryIfNeeded a need).DataStore i = a.DataStore i) ∧
    need ≤ (BA_ExpandMemoryIfNeeded a need).StoreFreeSizeInBytes ∧
    (BA_ExpandMemoryIfNeeded a need).StoreFreeSizeInBytes =
      (BA_ExpandMemoryIfNeeded a need).StoreSizeInBytes -
        (BA_ExpandMemoryIfNeeded a need).NextFreePosition ∧
    (BA_ExpandMemoryIfNeeded a need).NextFreePosition ≤
      (BA_ExpandMemoryIfNeeded a need).StoreSizeInBytes ∧
    1 ≤ (BA_ExpandMemoryIfNeeded a need).StoreSizeInBytes ∧
    a.BlobCount < (BA_ExpandMemoryIfNeeded a need).MaxBlobCount := by
  obtain ⟨hsz, hnf, hfree, hcnt, hslots⟩ := h
  unfold BA_ExpandMemoryIfNeeded
  have hused : a.StoreSizeInBytes - a.StoreFreeSizeInBytes = a.NextFreePosition := by omega
  by_cases hgrow : need > a.StoreFreeSizeInBytes
  · have hge : a.StoreSizeInBytes + need ≤
        BA_GrowLoop (a.StoreSizeInBytes + need) (a.StoreSizeInBytes * 2)
          (a.StoreSizeInBytes + need) :=
      BA_GrowLoop_ge _ _ _ (by omega) (by omega)
    by_cases hkeys :
        (BA_ExpandStorage a (BA_GrowLoop (a.StoreSizeInBytes + need) (a.StoreSizeInBytes * 2)
          (a.StoreSizeInBytes + need))).BlobCount ≥
        (BA_ExpandStorage a (BA_GrowLoop (a.StoreSizeInBytes + need) (a.StoreSizeInBytes * 2)
          (a.StoreSizeInBytes + need))).MaxBlobCount
    · simp only [if_pos hgrow, if_pos hkeys]
      simp only [BA_ExpandStorage, BA_DoubleKeyArea] at hkeys ⊢
      refine ⟨trivial, trivial, trivial, ?_, ?_, by omega, by omega, by omega, by omega, by omega⟩
      · intro k h1k hkc
        have : k < a.MaxBlobCount + 1 := by omega
        simp [this]
      · intro i hi
        simp [hused, hi]
    · simp only [if_pos hgrow, if_neg hkeys]
      simp only [BA_ExpandStorage] at hkeys ⊢
      refine ⟨trivial, trivial, trivial, by intro k h1k hkc; exact ⟨by trivial, by trivial⟩, ?_, by omega, by omega,
        by omega, by omega, by omega⟩
      intro i hi
      simp [hused, hi]
  · by_cases hkeys : a.BlobCount ≥ a.MaxBlobCount
    · simp only [if_neg hgrow, if_pos hkeys]
      simp only [BA_DoubleKeyArea]
      refine ⟨trivial, trivial, trivial, ?_, by intro i hi; trivial, by omega, by omega, by omega, by omega,
        by omega⟩
      intro k h1k hkc
      have : k < a.MaxBlobCount + 1 := by omega
      simp [this]
    · simp only [if_neg hgrow, if_neg hkeys]
      exact ⟨trivial, trivial, trivial, by intro k h1k hkc; exact ⟨by trivial, by trivial⟩, by intro i hi; trivial, by omega,
        by omega, by omega, by omega, by omega⟩

theorem BA_SlotOK_iff (a : BA_Allocator) (k : Nat) :
    BA_SlotOK a k = true ↔
      ∃ p, a.BlobPointers k = some p ∧
        p + a.BlobSizesInBytes k ≤ a.NextFreePosition := by
  unfold BA_SlotOK
  cases h : a.BlobPointers k <;> simp [h]

/-- Behaviour of `BA_AllocateBlob` on a well-formed store: it hands out the
next sequential key, records the requested (unpadded) size, bumps the cursor
past the aligned blob, and leaves every previously stored slot and every byte
below the old cursor untouched. -/
theorem BA_AllocateBlob_spec (a : BA_Allocator) (size : Nat) (h : BA_WF a) :
    (BA_AllocateBlob a size).2.1 = a.BlobCount + 1 ∧
    (BA_AllocateBlob a size).1.BlobCount = a.BlobCount + 1 ∧
    (BA_AllocateBlob a size).1.UsedBlobCount = a.UsedBlobCount + 1 ∧
    BA_WF (BA_AllocateBlob a size).1 ∧
    (BA_AllocateBlob a size).1.BlobPointers ((BA_AllocateBlob a size).2.1) =
      some (BA_AllocateBlob a size).2.2 ∧
    (BA_AllocateBlob a size).1.BlobSizesInBytes ((BA_AllocateBlob a size).2.1) = size ∧
    a.NextFreePosition ≤ (BA_AllocateBlob a size).2.2 ∧
    (BA_AllocateBlob a size).1.NextFreePosition = (BA_AllocateBlob a size).2.2 + size ∧
    (∀ k, 1 ≤ k → k ≤ a.BlobCount →
        (BA_AllocateBlob a size).1.BlobPointers k = a.BlobPointers k ∧
        (BA_AllocateBlob a size).1.BlobSizesInBytes k = a.BlobSizesInBytes k) ∧
    (∀ i, i < a.NextFreePosition → (BA_AllocateBlob a size).1.DataStore i = a.DataStore i) := by
  have hwf := h
  obtain ⟨hsz, hnf, hfree, hcnt, hslots⟩ := h
  have hE := BA_ExpandMemoryIfNeeded_spec a (size + (8 - a.NextFreePosition % 8) % 8) hwf
  obtain ⟨eNF, eBC, eUC, ePtr, eDS, eFree, eFreeEq, eNFle, eSz, eMax⟩ := hE
  unfold BA_AllocateBlob BA_CalculateNewKey
  simp only []
  refine ⟨by simp [eBC], by simp [eBC], by simp [eUC], ?_, by simp, by simp,
    by simp [eNF], by simp, ?_, ?_⟩
  · refine ⟨by simpa using eSz, ?_, ?_, ?_, ?_⟩
    · simp only []
      omega
    · simp only []
      omega
    · simp only [eBC]
      omega
    · intro k hk hk1
      rw [BA_SlotOK_iff]
      simp only [eBC] at hk
      by_cases hkey : k = (BA_ExpandMemoryIfNeeded a
          (size + (8 - a.NextFreePosition % 8) % 8)).BlobCount + 1
      · refine ⟨(BA_ExpandMemoryIfNeeded a
            (size + (8 - a.NextFreePosition % 8) % 8)).NextFreePosition +
            (8 - a.NextFreePosition % 8) % 8, ?_, ?_⟩
        · simp [hkey]
        · simp [hkey]
      · have hkc : k ≤ a.BlobCount := by omega
        obtain ⟨ePk, eSk⟩ := ePtr k hk1 hkc
        have := (BA_SlotOK_iff a k).mp (hslots k (by omega) hk1)
        obtain ⟨p, hp, hple⟩ := this
        refine ⟨p, ?_, ?_⟩
        · simp [hkey, ePk, hp]
        · simp only [if_neg hkey, eSk, eNF]
          omega
  · intro k hk1 hkc
    have hkey : k ≠ (BA_ExpandMemoryIfNeeded a
        (size + (8 - a.NextFreePosition % 8) % 8)).BlobCount + 1 := by
      omega
    obtain ⟨ePk, eSk⟩ := ePtr k hk1 hkc
    exact ⟨by simp [hkey, ePk], by simp [hkey, eSk]⟩
  · intro i hi
    exact eDS i hi

/-- One store refines another on all previously live keys: pointers, sizes
and the blob byte contents are unchanged and keys remain valid. -/
def BA_Preserves (a a' : BA_Allocator) : Prop :=
  a.BlobCount ≤ a'.BlobCount ∧
  ∀ k, 1 ≤ k → k ≤ a.BlobCount →
    a'.BlobPointers k = a.BlobPointers k ∧
    a'.BlobSizesInBytes k = a.BlobSizesInBytes k ∧
    ∀ p, a.BlobPointers k = some p →
      readBytes a'.DataStore p (a.BlobSizesInBytes k) =
        readBytes a.DataStore p (a.BlobSizesInBytes k)

theorem BA_Preserves_refl (a : BA_Allocator) : BA_Preserves a a :=
  ⟨le_refl _, fun _ _ _ => ⟨rfl, rfl, fun _ _ => rfl⟩⟩

theorem BA_Preserves_trans {a b c : BA_Allocator}
    (h1 : BA_Preserves a b) (h2 : BA_Preserves b c) : BA_Preserves a c := by
  obtain ⟨hc1, hk1⟩ := h1
  obtain ⟨hc2, hk2⟩ := h2
  refine ⟨le_trans hc1 hc2, fun k h1k hkc => ?_⟩
  obtain ⟨hp1, hs1, hb1⟩ := hk1 k h1k hkc
  obtain ⟨hp2, hs2, hb2⟩ := hk2 k h1k (le_trans hkc hc1)
  refine ⟨hp2.trans hp1, hs2.trans hs1, fun p hp => ?_⟩
  have hb2p := hb2 p (hp1.trans hp)
  rw [hs1] at hb2p
  exact hb2p.trans (hb1 p hp)

/-- Behaviour of `BA_PushBlob` on a well-formed store: the new key is the
next sequential one, its recorded size is the requested byte count, the bytes
read back through the recorded pointer are exactly the pushed bytes, and all
earlier blobs are preserved. -/
theorem BA_PushBlob_spec (a : BA_Allocator) (bs : List Nat) (h : BA_WF a) :
    (BA_PushBlob a bs).2 = a.BlobCount + 1 ∧
    (BA_PushBlob a bs).1.BlobCount = a.BlobCount + 1 ∧
    BA_WF (BA_PushBlob a bs).1 ∧
    BA_Preserves a (BA_PushBlob a bs).1 ∧
    ∃ pos,
      (BA_PushBlob a bs).1.BlobPointers (a.BlobCount + 1) = some pos ∧
      (BA_PushBlob a bs).1.BlobSizesInBytes (a.BlobCount + 1) = bs.length ∧
      readBytes (BA_PushBlob a bs).1.DataStore pos bs.length = bs := by
  obtain ⟨hkey, hbc, huc, hwf, hptr, hsizes, hposge, hnf, hpres, hds⟩ :=
    BA_AllocateBlob_spec a bs.length h
  unfold BA_PushBlob
  simp only []
  obtain ⟨wsz, wnf, wfree, wcnt, wslots⟩ := hwf
  constructor
  · exact hkey
  constructor
  · exact hbc
  constructor
  · exact ⟨wsz, wnf, wfree, wcnt, by
      intro k hk hk1
      have := wslots k hk hk1
      rw [BA_SlotOK_iff] at this ⊢
      simpa using this⟩
  constructor
  · refine ⟨?_, fun k h1k hkc => ?_⟩
    · show a.BlobCount ≤ (BA_AllocateBlob a bs.length).1.BlobCount
      omega
    obtain ⟨hpk, hsk⟩ := hpres k h1k hkc
    refine ⟨by simpa using hpk, by simpa using hsk, fun p hp => ?_⟩
    have hok := (BA_SlotOK_iff a k).mp ((h.2.2.2.2) k (by omega) h1k)
    obtain ⟨p2, hp2, hple⟩ := hok
    have hpp : p2 = p := by rw [hp] at hp2; exact (Option.some.inj hp2).symm
    subst hpp
    have hle2 : p2 + a.BlobSizesInBytes k ≤ (BA_AllocateBlob a bs.length).2.2 := by omega
    rw [readBytes_writeBytes_of_le _ _ _ _ _ hle2]
    apply readBytes_congr
    intro i hi
    exact hds i (by omega)
  · refine ⟨(BA_AllocateBlob a bs.length).2.2, ?_, ?_, ?_⟩
    · rw [← hkey]
      simpa using hptr
    · rw [← hkey]
      simpa using hsizes
    · simpa using readBytes_writeBytes_self (BA_AllocateBlob a bs.length).1.DataStore bs
        (BA_AllocateBlob a bs.length).2.2

/-- One supported push operation on a blob store, covering every typed push
shortcut exposed by `bump-allocator.c`. -/
inductive BAOp where
  | opBlob (bs : List Nat)
  | opString (s : List Nat)
  | opInt32 (v : Int)
  | opUint32 (v : Nat)
  | opInt64 (v : Int)
  | opUint64 (v : Nat)
  | opDouble (bits : Nat)
  | opPointer (p : Nat)
deriving DecidableEq

/-- Run one push, returning the new store and the returned key. -/
def BAOp.run : BAOp → BA_Allocator → BA_Allocator × Nat
  | .opBlob bs, a => BA_PushBlob a bs
  | .opString s, a => BA_PushString a s
  | .opInt32 v, a => BA_PushInt32 a v
  | .opUint32 v, a => BA_PushUint32 a v
  | .opInt64 v, a => BA_PushInt64 a v
  | .opUint64 v, a => BA_PushUint64 a v
  | .opDouble bits, a => BA_PushDouble a bits
  | .opPointer p, a => BA_PushPointer a p

/-- Run a sequence of pushes, discarding the returned keys. -/
def BA_RunOps (a : BA_Allocator) : List BAOp → BA_Allocator
  | [] => a
  | op :: ops => BA_RunOps (op.run a).1 ops

/-- A value read back out of the store via the typed getter matching a push. -/
inductive BAVal where
  | vBytes (bs : List Nat)
  | vStr (s : List Nat)
  | vI32 (v : Int)
  | vU32 (v : Nat)
  | vI64 (v : Int)
  | vU64 (v : Nat)
  | vDbl (bits : Nat)
  | vPtr (p : Nat)
deriving DecidableEq

/-- The value that the matching typed `BA_Get*` returns for a key, wrapped in
the shared value type. -/
def BAOp.retrieve : BAOp → BA_Allocator → Nat → Option BAVal
  | .opBlob _, a, k => (BA_GetBlobBytes a k).map .vBytes
  | .opString _, a, k => (BA_GetString a k).map .vStr
  | .opInt32 _, a, k => (BA_GetInt32 a k).map .vI32
  | .opUint32 _, a, k => (BA_GetUint32 a k).map .vU32
  | .opInt64 _, a, k => (BA_GetInt64 a k).map .vI64
  | .opUint64 _, a, k => (BA_GetUint64 a k).map .vU64
  | .opDouble _, a, k => (BA_GetDouble a k).map .vDbl
  | .opPointer _, a, k => (BA_GetPointer a k).map .vPtr

/-- The pushed value, in the shared value type. -/
def BAOp.pushedVal : BAOp → BAVal
  | .opBlob bs => .vBytes bs
  | .opString s => .vStr s
  | .opInt32 v => .vI32 v
  | .opUint32 v => .vU32 v
  | .opInt64 v => .vI64 v
  | .opUint64 v => .vU64 v
  | .opDouble bits => .vDbl bits
  | .opPointer p => .vPtr p

/-- The size the push requests from `BA_AllocateBlob` (`sizeof` of the C type,
the byte count for a raw blob, `strlen + 1` for a string). -/
def BAOp.reqSize : BAOp → Nat
  | .opBlob bs => bs.length
  | .opString s => s.length + 1
  | .opInt32 _ => 4
  | .opUint32 _ => 4
  | .opInt64 _ => 8
  | .opUint64 _ => 8
  | .opDouble _ => 8
  | .opPointer _ => 8

/-- The C-type range constraints on the pushed value: the typed pushes take
fixed-width machine arguments, and a C string has no interior NUL byte. -/
def BAOp.ok : BAOp → Prop
  | .opBlob _ => True
  | .opString s => ∀ b ∈ s, b ≠ 0
  | .opInt32 v => -2 ^ 31 ≤ v ∧ v < 2 ^ 31
  | .opUint32 v => v < 2 ^ 32
  | .opInt64 v => -2 ^ 63 ≤ v ∧ v < 2 ^ 63
  | .opUint64 v => v < 2 ^ 64
  | .opDouble bits => bits < 2 ^ 64
  | .opPointer p => p < 2 ^ 64

instance (op : BAOp) : Decidable op.ok := by
  unfold BAOp.ok
  cases op <;> infer_instance

/-- Every push is `BA_PushBlob` of the object representation of its value. -/
def BAOp.bytes : BAOp → List Nat
  | .opBlob bs => bs
  | .opString s => s ++ [0]
  | .opInt32 v => int32ToBytes v
  | .opUint32 v => natToBytesLE 4 (v % 2 ^ 32)
  | .opInt64 v => int64ToBytes v
  | .opUint64 v => natToBytesLE 8 (v % 2 ^ 64)
  | .opDouble bits => natToBytesLE 8 (bits % 2 ^ 64)
  | .opPointer p => natToBytesLE 8 (p % 2 ^ 64)

theorem BAOp.run_eq_pushBlob (op : BAOp) (a : BA_Allocator) :
    op.run a = BA_PushBlob a op.bytes := by
  cases op <;> rfl

theorem BAOp.bytes_length (op : BAOp) : op.bytes.length = op.reqSize := by
  cases op <;> simp [BAOp.bytes, BAOp.reqSize, natToBytesLE_length, int32ToBytes, int64ToBytes]

/-- One push preserves well-formedness and all earlier blobs. -/
theorem BAOp.run_wf_preserves (op : BAOp) (a : BA_Allocator) (h : BA_WF a) :
    BA_WF (op.run a).1 ∧ BA_Preserves a (op.run a).1 := by
  rw [BAOp.run_eq_pushBlob]
  obtain ⟨_, _, hwf, hpres, _⟩ := BA_PushBlob_spec a op.bytes h
  exact ⟨hwf, hpres⟩

/-- A sequence of pushes preserves well-formedness and all earlier blobs. -/
theorem BA_RunOps_wf_preserves (ops : List BAOp) (a : BA_Allocator) (h : BA_WF a) :
    BA_WF (BA_RunOps a ops) ∧ BA_Preserves a (BA_RunOps a ops) := by
  induction ops generalizing a with
  | nil => exact ⟨h, BA_Preserves_refl a⟩
  | cons op ops ih =>
    obtain ⟨hwf1, hpres1⟩ := BAOp.run_wf_preserves op a h
    obtain ⟨hwf2, hpres2⟩ := ih (op.run a).1 hwf1
    exact ⟨hwf2, BA_Preserves_trans hpres1 hpres2⟩

theorem takeWhile_append_zero (s : List Nat) (h : ∀ b ∈ s, b ≠ 0) :
    (s ++ [0]).takeWhile (· ≠ 0) = s := by
  induction s with
  | nil => simp
  | cons b bs ih =>
    have hb : b ≠ 0 := h b (by simp)
    have hbs : ∀ x ∈ bs, x ≠ 0 := fun x hx => h x (by simp [hx])
    have hih := ih hbs
    simp only [ne_eq, decide_not] at hih ⊢
    simp [hb, hih]

/-- CLAIM C7.  Blob store round-trip: pushing any supported variant and then
reading the returned key back through the matching typed getter yields a value
bitwise equal to the pushed one, and `BA_GetBlob` reports exactly the
requested size (alignment padding excluded) — and this remains true after any
sequence of later pushes, in particular across the region doublings (with the
pointer rebasing of `BA_ExpandStorage`) and the slot-array doublings those
pushes trigger. -/
theorem C7_blob_store_roundtrip (a : BA_Allocator) (h : BA_WF a) (op : BAOp) (hok : op.ok)
    (later : List BAOp) :
    op.retrieve (BA_RunOps (op.run a).1 later) (op.run a).2 = some op.pushedVal ∧
    (BA_GetBlob (BA_RunOps (op.run a).1 later) (op.run a).2).map Prod.snd =
      some op.reqSize := by
  obtain ⟨hkey, hbc, hwf1, hpres1, pos, hptr, hsz, hbytes⟩ := BA_PushBlob_spec a op.bytes h
  rw [BAOp.run_eq_pushBlob]
  obtain ⟨hwf2, hpres2⟩ := BA_RunOps_wf_preserves later (BA_PushBlob a op.bytes).1 hwf1
  rw [hkey] at *
  have hk1 : 1 ≤ a.BlobCount + 1 := by omega
  have hkc : a.BlobCount + 1 ≤ (BA_PushBlob a op.bytes).1.BlobCount := by omega
  obtain ⟨hp2, hs2, hb2⟩ := hpres2.2 (a.BlobCount + 1) hk1 hkc
  have hvalid2 : BA_IsKeyValid (BA_RunOps (BA_PushBlob a op.bytes).1 later)
      (a.BlobCount + 1) = true := by
    unfold BA_IsKeyValid
    have := hpres2.1
    simp only [Bool.and_eq_true, bne_iff_ne, ne_eq, decide_eq_true_eq]
    omega
  have hszreq : (BA_PushBlob a op.bytes).1.BlobSizesInBytes (a.BlobCount + 1) = op.reqSize := by
    rw [hsz, BAOp.bytes_length]
  have hp2' : (BA_RunOps (BA_PushBlob a op.bytes).1 later).BlobPointers (a.BlobCount + 1) =
      some pos := by rw [hp2, hptr]
  have hs2' : (BA_RunOps (BA_PushBlob a op.bytes).1 later).BlobSizesInBytes (a.BlobCount + 1) =
      op.reqSize := by rw [hs2, hszreq]
  have hbytes2 : readBytes (BA_PushBlob a op.bytes).1.DataStore pos op.reqSize = op.bytes := by
    rw [← BAOp.bytes_length]
    exact hbytes
  have hread : readBytes (BA_RunOps (BA_PushBlob a op.bytes).1 later).DataStore pos
      op.reqSize = op.bytes := by
    have h0 := hb2 pos hptr
    rw [hszreq] at h0
    rw [h0]
    exact hbytes2
  have hGetBlob : BA_GetBlob (BA_RunOps (BA_PushBlob a op.bytes).1 later) (a.BlobCount + 1) =
      some (pos, op.reqSize) := by
    unfold BA_GetBlob
    rw [if_pos hvalid2, hp2', hs2']
  refine ⟨?_, by rw [hGetBlob]; rfl⟩
  cases op with
  | opBlob bs =>
    simp only [BAOp.bytes, BAOp.reqSize, BAOp.pushedVal] at hread hGetBlob ⊢
    simp only [BAOp.retrieve, BA_GetBlobBytes, hGetBlob, Option.map_some']
    rw [hread]
  | opString s =>
    have hok2 : ∀ b ∈ s, b ≠ 0 := hok
    simp only [BAOp.bytes, BAOp.reqSize, BAOp.pushedVal] at hread hp2' hs2' hvalid2 ⊢
    simp only [BAOp.retrieve, BA_GetString, hvalid2, if_pos, hp2', hs2', Option.map_some']
    rw [hread, takeWhile_append_zero s hok2]
  | opInt32 v =>
    have hok2 : -2 ^ 31 ≤ v ∧ v < 2 ^ 31 := hok
    simp only [BAOp.bytes, BAOp.reqSize, BAOp.pushedVal] at hread hp2' hvalid2 ⊢
    simp only [BAOp.retrieve, BA_GetInt32, hvalid2, if_pos, hp2', Option.map_some']
    rw [hread, bytesToInt32_int32ToBytes v hok2.1 hok2.2]
  | opUint32 v =>
    have hok2 : v < 2 ^ 32 := hok
    simp only [BAOp.bytes, BAOp.reqSize, BAOp.pushedVal] at hread hp2' hvalid2 ⊢
    simp only [BAOp.retrieve, BA_GetUint32, hvalid2, if_pos, hp2', Option.map_some']
    rw [hread, bytesToNatLE_natToBytesLE]
    have hv : v % 2 ^ 32 % 2 ^ (8 * 4) = v := by
      have h1 : v % 2 ^ 32 = v := Nat.mod_eq_of_lt hok2
      rw [h1]
      exact Nat.mod_eq_of_lt hok2
    rw [hv]
  | opInt64 v =>
    have hok2 : -2 ^ 63 ≤ v ∧ v < 2 ^ 63 := hok
    simp only [BAOp.bytes, BAOp.reqSize, BAOp.pushedVal] at hread hp2' hvalid2 ⊢
    simp only [BAOp.retrieve, BA_GetInt64, hvalid2, if_pos, hp2', Option.map_some']
    rw [hread, bytesToInt64_int64ToBytes v hok2.1 hok2.2]
  | opUint64 v =>
    have hok2 : v < 2 ^ 64 := hok
    simp only [BAOp.bytes, BAOp.reqSize, BAOp.pushedVal] at hread hp2' hvalid2 ⊢
    simp only [BAOp.retrieve, BA_GetUint64, hvalid2, if_pos, hp2', Option.map_some']
    rw [hread, bytesToNatLE_natToBytesLE]
    have hv : v % 2 ^ 64 % 2 ^ (8 * 8) = v := by
      have h1 : v % 2 ^ 64 = v := Nat.mod_eq_of_lt hok2
      rw [h1]
      exact Nat.mod_eq_of_lt hok2
    rw [hv]
  | opDouble bits =>
    have hok2 : bits < 2 ^ 64 := hok
    simp only [BAOp.bytes, BAOp.reqSize, BAOp.pushedVal] at hread hp2' hvalid2 ⊢
    simp only [BAOp.retrieve, BA_GetDouble, hvalid2, if_pos, hp2', Option.map_some']
    rw [hread, bytesToNatLE_natToBytesLE]
    have hv : bits % 2 ^ 64 % 2 ^ (8 * 8) = bits := by
      have h1 : bits % 2 ^ 64 = bits := Nat.mod_eq_of_lt hok2
      rw [h1]
      exact Nat.mod_eq_of_lt hok2
    rw [hv]
  | opPointer p =>
    have hok2 : p < 2 ^ 64 := hok
    simp only [BAOp.bytes, BAOp.reqSize, BAOp.pushedVal] at hread hp2' hvalid2 ⊢
    simp only [BAOp.retrieve, BA_GetPointer, hvalid2, if_pos, hp2', Option.map_some']
    rw [hread, bytesToNatLE_natToBytesLE]
    have hv : p % 2 ^ 64 % 2 ^ (8 * 8) = p := by
      have h1 : p % 2 ^ 64 = p := Nat.mod_eq_of_lt hok2
      rw [h1]
      exact Nat.mod_eq_of_lt hok2
    rw [hv]

/-============================================================================-/
/- Free-offset queue (src/trivial-queue-uint.c)                               -/
/-============================================================================-/

/-- State of `struct TQU_Queue`: a circular buffer of `size_t` values.
`Data` always has length `Capacity`. -/
structure TQU_Queue where
  Data : List Nat
  Head : Nat
  Tail : Nat
  Count : Nat
  Capacity : Nat
deriving DecidableEq

/-- Port of `TQU_CreateQueue` (`calloc` zero-fills the buffer). -/
def TQU_CreateQueue (InitialCapacity : Nat) : TQU_Queue :=
  { Data := List.replicate InitialCapacity 0,
    Head := 0, Tail := 0, Count := 0, Capacity := InitialCapacity }

/-- Port of `TQU_IsEmpty`. -/
def TQU_IsEmpty (Queue : TQU_Queue) : Bool := Queue.Count == 0

/-- Port of `TQU_IsFull`. -/
def TQU_IsFull (Queue : TQU_Queue) : Bool := Queue.Count == Queue.Capacity

/-- Port of `TQU_GetCapacity`. -/
def TQU_GetCapacity (Queue : TQU_Queue) : Nat := Queue.Capacity

/-- Port of `TQU_GetCount`. -/
def TQU_GetCount (Queue : TQU_Queue) : Nat := Queue.Count

/-- Port of `TQU_ResizeQueue`.  The copy loop walks `OffsetB` from `Head`
forward modulo the old capacity, so after `i` iterations
`OffsetB = (Head + i) % Capacity`; the new buffer therefore holds the `i`-th
oldest element at index `i` and `calloc` zeroes the rest. -/
def TQU_ResizeQueue (Queue : TQU_Queue) : TQU_Queue :=
  let NewCapacity := Queue.Capacity * 2
  let NewData := (List.range NewCapacity).map fun i =>
    if i < Queue.Count then Queue.Data.getD ((Queue.Head + i) % Queue.Capacity) 0 else 0
  { Data := NewData, Head := 0, Tail := Queue.Count, Count := Queue.Count,
    Capacity := NewCapacity }

/-- The store-at-tail step of `TQU_Enqueue` (the non-full branch body). -/
def TQU_EnqueueUnchecked (Queue : TQU_Queue) (Value : Nat) : TQU_Queue :=
  { Queue with
    Data := Queue.Data.set Queue.Tail Value,
    Tail := (Queue.Tail + 1) % Queue.Capacity,
    Count := Queue.Count + 1 }

/-- Port of `TQU_Enqueue`.  The C function retries itself after
`TQU_ResizeQueue`; for every positive capacity the resized queue is no longer
full, so the retry takes the non-full branch, which is inlined here.  (With
capacity zero the C retry loops forever; such a queue is never created: the
registry allocates its queue with the registry capacity.) -/
def TQU_Enqueue (Queue : TQU_Queue) (Value : Nat) : Bool × TQU_Queue :=
  if !TQU_IsFull Queue then
    (true, TQU_EnqueueUnchecked Queue Value)
  else if Queue.Count == Queue.Capacity then
    (true, TQU_EnqueueUnchecked (TQU_ResizeQueue Queue) Value)
  else
    (false, Queue)

/-- Port of `TQU_Peek`. -/
def TQU_Peek (Queue : TQU_Queue) : Nat :=
  if TQU_IsEmpty Queue then 0 else Queue.Data.getD Queue.Head 0

/-- Port of `TQU_Dequeue`: returns 0 on an empty queue, otherwise the element
at `Head` (which is zeroed and stepped past). -/
def TQU_Dequeue (Queue : TQU_Queue) : Nat × TQU_Queue :=
  if TQU_IsEmpty Queue then
    (0, Queue)
  else
    (Queue.Data.getD Queue.Head 0,
     { Queue with
       Data := Queue.Data.set Queue.Head 0,
       Head := (Queue.Head + 1) % Queue.Capacity,
       Count := Queue.Count - 1 })

/-- Abstraction: the queue contents in FIFO order (oldest first). -/
def TQU_toList (Queue : TQU_Queue) : List Nat :=
  (List.range Queue.Count).map fun i => Queue.Data.getD ((Queue.Head + i) % Queue.Capacity) 0

/-- Well-formedness of a circular queue, established by `TQU_CreateQueue` for
positive capacities and preserved by the operations. -/
def TQU_WF (Queue : TQU_Queue) : Prop :=
  Queue.Data.length = Queue.Capacity ∧
  1 ≤ Queue.Capacity ∧
  Queue.Count ≤ Queue.Capacity ∧
  Queue.Head < Queue.Capacity ∧
  Queue.Tail = (Queue.Head + Queue.Count) % Queue.Capacity

instance (q : TQU_Queue) : Decidable (TQU_WF q) := by
  unfold TQU_WF
  infer_instance

theorem TQU_CreateQueue_WF (c : Nat) (hc : 1 ≤ c) : TQU_WF (TQU_CreateQueue c) := by
  refine ⟨by simp [TQU_CreateQueue], hc, by simp [TQU_CreateQueue], by simpa [TQU_CreateQueue]
    using hc, by simp [TQU_CreateQueue]⟩

theorem getD_set_ne (l : List Nat) (i j v : Nat) (h : i ≠ j) :
    (l.set i v).getD j 0 = l.getD j 0 := by
  rcases lt_or_ge j l.length with hj | hj
  · rw [List.getD_eq_getElem _ _ (by simpa using hj), List.getD_eq_getElem _ _ hj]
    exact List.getElem_set_ne h _
  · rw [List.getD_eq_default _ _ (by simpa using hj), List.getD_eq_default _ _ hj]

theorem getD_set_self (l : List Nat) (i v : Nat) (h : i < l.length) :
    (l.set i v).getD i 0 = v := by
  rw [List.getD_eq_getElem _ _ (by simpa using h)]
  exact List.getElem_set_self _

theorem mod_shift_ne (A d Cap : Nat) (h1 : 0 < d) (h2 : d < Cap) :
    (A + d) % Cap ≠ A % Cap := by
  intro h
  have hmodeq : A + d ≡ A + 0 [MOD Cap] := by
    simpa [Nat.ModEq] using h
  have hd0 : d ≡ 0 [MOD Cap] := Nat.ModEq.add_left_cancel' A hmodeq
  have hdvd : Cap ∣ d := (Nat.modEq_zero_iff_dvd).mp hd0
  have := Nat.le_of_dvd h1 hdvd
  omega

theorem TQU_toList_length (q : TQU_Queue) : (TQU_toList q).length = q.Count := by
  simp [TQU_toList]

theorem TQU_EnqueueUnchecked_spec (q : TQU_Queue) (v : Nat) (h : TQU_WF q)
    (hnf : q.Count < q.Capacity) :
    TQU_toList (TQU_EnqueueUnchecked q v) = TQU_toList q ++ [v] ∧
    TQU_WF (TQU_EnqueueUnchecked q v) := by
  obtain ⟨hlen, hcap, hcnt, hhead, htail⟩ := h
  constructor
  · unfold TQU_toList TQU_EnqueueUnchecked
    simp only [List.range_succ, List.map_append, List.map_cons, List.map_nil]
    congr 1
    · apply List.map_congr_left
      intro i hi
      have hi' := List.mem_range.mp hi
      rw [htail]
      apply getD_set_ne
      have hne := mod_shift_ne (q.Head + i) (q.Count - i) q.Capacity (by omega) (by omega)
      have harith : q.Head + i + (q.Count - i) = q.Head + q.Count := by omega
      rw [harith] at hne
      exact hne
    · rw [htail]
      rw [getD_set_self]
      rw [hlen]
      exact Nat.mod_lt _ (by omega)
  · refine ⟨?_, hcap, ?_, ?_, ?_⟩
    · simp [TQU_EnqueueUnchecked, hlen]
    · simp only [TQU_EnqueueUnchecked]
      omega
    · simpa [TQU_EnqueueUnchecked] using hhead
    · simp only [TQU_EnqueueUnchecked, htail]
      rw [Nat.mod_add_mod]
      congr 1

theorem TQU_ResizeQueue_spec (q : TQU_Queue) (h : TQU_WF q) (hfull : q.Count = q.Capacity) :
    TQU_toList (TQU_ResizeQueue q) = TQU_toList q ∧
    TQU_WF (TQU_ResizeQueue q) ∧
    (TQU_ResizeQueue q).Count < (TQU_ResizeQueue q).Capacity := by
  obtain ⟨hlen, hcap, hcnt, hhead, htail⟩ := h
  refine ⟨?_, ⟨?_, ?_, ?_, ?_, ?_⟩, ?_⟩
  · unfold TQU_toList TQU_ResizeQueue
    simp only []
    apply List.map_congr_left
    intro i hi
    have hi' := List.mem_range.mp hi
    have hilt : i < q.Capacity * 2 := by omega
    have hmod : (0 + i) % (q.Capacity * 2) = i := by
      rw [Nat.zero_add]
      exact Nat.mod_eq_of_lt hilt
    rw [hmod]
    rw [List.getD_eq_getElem _ _ (by simpa using hilt)]
    simp only [List.getElem_map, List.getElem_range]
    rw [if_pos hi']
  · simp only [TQU_ResizeQueue]
    simp
  · simp only [TQU_ResizeQueue]
    omega
  · simp only [TQU_ResizeQueue]
    omega
  · simp only [TQU_ResizeQueue]
    omega
  · simp only [TQU_ResizeQueue]
    rw [Nat.zero_add, Nat.mod_eq_of_lt (by omega)]
  · simp only [TQU_ResizeQueue]
    omega

theorem TQU_Enqueue_spec (q : TQU_Queue) (v : Nat) (h : TQU_WF q) :
    (TQU_Enqueue q v).1 = true ∧
    TQU_toList (TQU_Enqueue q v).2 = TQU_toList q ++ [v] ∧
    TQU_WF (TQU_Enqueue q v).2 := by
  by_cases hfull : TQU_IsFull q = true
  · have hfc : q.Count = q.Capacity := by
      simpa [TQU_IsFull] using hfull
    obtain ⟨hRl, hRwf, hRlt⟩ := TQU_ResizeQueue_spec q h hfc
    obtain ⟨hEl, hEwf⟩ := TQU_EnqueueUnchecked_spec (TQU_ResizeQueue q) v hRwf hRlt
    unfold TQU_Enqueue
    rw [hfull]
    simp only [Bool.not_true, Bool.false_eq_true, if_false]
    rw [if_pos (by simpa [beq_iff_eq] using hfc)]
    exact ⟨by trivial, by rw [hEl, hRl], hEwf⟩
  · have hnf : q.Count < q.Capacity := by
      have h1 : ¬ q.Count = q.Capacity := by simpa [TQU_IsFull] using hfull
      have := h.2.2.1
      omega
    obtain ⟨hEl, hEwf⟩ := TQU_EnqueueUnchecked_spec q v h hnf
    unfold TQU_Enqueue
    rw [Bool.not_eq_true] at hfull
    rw [hfull]
    simp only [Bool.not_false, if_true]
    exact ⟨by trivial, hEl, hEwf⟩

theorem TQU_Dequeue_empty (q : TQU_Queue) (h0 : q.Count = 0) : TQU_Dequeue q = (0, q) := by
  unfold TQU_Dequeue TQU_IsEmpty
  rw [if_pos (by simpa using h0)]

theorem TQU_Dequeue_spec (q : TQU_Queue) (h : TQU_WF q) (hne : 0 < q.Count) :
    TQU_toList q = (TQU_Dequeue q).1 :: TQU_toList (TQU_Dequeue q).2 ∧
    TQU_WF (TQU_Dequeue q).2 := by
  obtain ⟨hlen, hcap, hcnt, hhead, htail⟩ := h
  have hnotempty : TQU_IsEmpty q = false := by
    simp [TQU_IsEmpty]
    omega
  unfold TQU_Dequeue
  rw [hnotempty]
  simp only [Bool.false_eq_true, if_false]
  constructor
  · obtain ⟨m, hm⟩ : ∃ m, q.Count = m + 1 := ⟨q.Count - 1, by omega⟩
    unfold TQU_toList
    simp only [hm]
    rw [List.range_succ_eq_map]
    simp only [List.map_cons, List.map_map]
    congr 1
    · rw [Nat.add_zero, Nat.mod_eq_of_lt hhead]
    · simp only [Nat.add_sub_cancel]
      apply List.map_congr_left
      intro i hi
      have hi' := List.mem_range.mp hi
      simp only [Function.comp]
      rw [Nat.mod_add_mod]
      have hidx : q.Head + 1 + i = q.Head + (i + 1) := by omega
      rw [hidx]
      rw [getD_set_ne]
      intro hEq
      have hne2 := mod_shift_ne q.Head (i + 1) q.Capacity (by omega) (by omega)
      rw [Nat.mod_eq_of_lt hhead] at hne2
      exact hne2 hEq.symm
  · refine ⟨?_, hcap, ?_, ?_, ?_⟩
    · simpa using hlen
    · simp only []
      omega
    · exact Nat.mod_lt _ (by omega)
    · simp only [htail]
      rw [Nat.mod_add_mod]
      congr 1
      omega

/-============================================================================-/
/- Stable-index registry (src/trivial-array.c)                                -/
/-============================================================================-/

/-- State of `struct TA_Array`: a vector of object pointers (`none` = `NULL`)
with 1-based stable offsets; offset 0 is the reserved invalid sentinel.
`Data` always has length `Capacity`. -/
structure TA_Array (α : Type) where
  Data : List (Option α)
  Count : Nat
  Capacity : Nat
  RemovedOffsets : TQU_Queue

/-- Port of `TA_CreateArray` (`Count` starts at 1: slot 0 is reserved). -/
def TA_CreateArray (α : Type) (InitialCapacity : Nat) : TA_Array α :=
  { Data := List.replicate InitialCapacity none,
    Count := 1,
    Capacity := InitialCapacity,
    RemovedOffsets := TQU_CreateQueue InitialCapacity }

/-- Port of `TA_ResizeArray`: the data vector doubles and the fresh slots are
zero-initialised. -/
def TA_ResizeArray {α : Type} (Array : TA_Array α) : TA_Array α :=
  let NewCapacity := Array.Capacity * 2
  { Array with
    Data := Array.Data ++ List.replicate (NewCapacity - Array.Capacity) none,
    Capacity := NewCapacity }

/-- Port of `TA_FindFreeElement`: prefer the oldest removed offset from the
free queue, else the high-water `Count`.  Dequeuing mutates the queue, so the
updated array is returned alongside the offset. -/
def TA_FindFreeElement {α : Type} (Array : TA_Array α) : Nat × TA_Array α :=
  if TQU_IsEmpty Array.RemovedOffsets then
    (Array.Count, Array)
  else
    let r := TQU_Dequeue Array.RemovedOffsets
    (r.1, { Array with RemovedOffsets := r.2 })

/-- Port of `TA_AddObject`: resize when `Count` reached `Capacity`, pick the
free offset, store the object there (unless the offset is the invalid
sentinel 0, which `TA_FindFreeElement` never actually produces) and return
the offset. -/
def TA_AddObject {α : Type} (Array : TA_Array α) (Object : α) : Nat × TA_Array α :=
  let a1 := if Array.Count ≥ Array.Capacity then TA_ResizeArray Array else Array
  let r := TA_FindFreeElement a1
  let Offset := r.1
  let a2 := r.2
  (Offset,
   if Offset ≠ 0 then
     { a2 with Data := a2.Data.set Offset (some Object), Count := a2.Count + 1 }
   else a2)

/-- Port of `TA_GetCapacity`. -/
def TA_GetCapacity {α : Type} (Array : TA_Array α) : Nat := Array.Capacity

/-- Port of `TA_IsValid`. -/
def TA_IsValid {α : Type} (Array : TA_Array α) (Offset : Nat) : Bool :=
  Offset != 0 && Offset < Array.Capacity && (Array.Data.getD Offset none).isSome

/-- Port of `TA_GetObject` (reading a `NULL` slot yields `none`). -/
def TA_GetObject {α : Type} (Array : TA_Array α) (Offset : Nat) : Option α :=
  Array.Data.getD Offset none

/-- Port of `TA_RemoveObject`: clear the slot and enqueue the offset for
reuse; removing an invalid offset is a no-op. -/
def TA_RemoveObject {α : Type} (Array : TA_Array α) (Offset : Nat) : TA_Array α :=
  if TA_IsValid Array Offset then
    { Array with
      Data := Array.Data.set Offset none,
      Count := Array.Count - 1,
      RemovedOffsets := (TQU_Enqueue Array.RemovedOffsets Offset).2 }
  else Array

/-- The removed-but-not-yet-reused offsets, oldest first. -/
def TA_RemovedPending {α : Type} (Array : TA_Array α) : List Nat :=
  TQU_toList Array.RemovedOffsets

theorem TQU_toList_eq_nil (q : TQU_Queue) : TQU_toList q = [] ↔ q.Count = 0 := by
  simp [TQU_toList, List.range_eq_nil]

/-- CLAIM C8.  Registry offset reuse order.  `Remove` appends the removed
offset at the back of the free-offset queue; `Add` prefers dequeuing the
oldest removed offset over extending into fresh space and uses the fresh
high-water offset (`Count`) only when the queue is empty.  In particular,
after `Remove(k)`, the next `Add` returns `k` whenever `k` is the oldest
removed offset not yet reused (the head of `TA_RemovedPending`). -/
theorem C8_registry_fifo_reuse :
    (∀ (a : TA_Array Nat) (k : Nat), TQU_WF a.RemovedOffsets → TA_IsValid a k = true →
      TA_RemovedPending (TA_RemoveObject a k) = TA_RemovedPending a ++ [k]) ∧
    (∀ (a : TA_Array Nat) (obj : Nat), TQU_WF a.RemovedOffsets →
      (TA_RemovedPending a = [] → (TA_AddObject a obj).1 = a.Count) ∧
      (∀ h rest, TA_RemovedPending a = h :: rest →
        (TA_AddObject a obj).1 = h ∧
        TA_RemovedPending (TA_AddObject a obj).2 = rest)) := by
  constructor
  · intro a k hwf hvalid
    unfold TA_RemoveObject TA_RemovedPending
    rw [if_pos hvalid]
    exact (TQU_Enqueue_spec a.RemovedOffsets k hwf).2.1
  · intro a obj hwf
    have hq1 : (if a.Count ≥ a.Capacity then TA_ResizeArray a else a).RemovedOffsets =
        a.RemovedOffsets := by
      split <;> rfl
    have hc1 : (if a.Count ≥ a.Capacity then TA_ResizeArray a else a).Count = a.Count := by
      split <;> rfl
    constructor
    · intro hnil
      have hcnt0 : a.RemovedOffsets.Count = 0 := (TQU_toList_eq_nil _).mp hnil
      have hemp : TQU_IsEmpty (if a.Count ≥ a.Capacity then TA_ResizeArray a
          else a).RemovedOffsets = true := by
        rw [hq1]
        simpa [TQU_IsEmpty] using hcnt0
      unfold TA_AddObject TA_FindFreeElement
      simp only [hemp, if_true]
      exact hc1
    · intro h rest hcons
      unfold TA_RemovedPending at hcons
      have hcnt : 0 < a.RemovedOffsets.Count := by
        by_contra hc
        have : a.RemovedOffsets.Count = 0 := by omega
        rw [(TQU_toList_eq_nil _).mpr this] at hcons
        exact List.noConfusion hcons
      have hnotemp : TQU_IsEmpty a.RemovedOffsets = false := by
        simp [TQU_IsEmpty]
        omega
      obtain ⟨hdq, hdwf⟩ := TQU_Dequeue_spec a.RemovedOffsets hwf hcnt
      rw [hcons] at hdq
      have hval : (TQU_Dequeue a.RemovedOffsets).1 = h := (List.cons.injEq _ _ _ _).mp hdq.symm |>.1
      have hrest : TQU_toList (TQU_Dequeue a.RemovedOffsets).2 = rest :=
        ((List.cons.injEq _ _ _ _).mp hdq.symm).2
      unfold TA_AddObject TA_FindFreeElement
      simp only [hq1, hnotemp, Bool.false_eq_true, if_false]
      refine ⟨hval, ?_⟩
      unfold TA_RemovedPending
      split
      · exact hrest
      · exact hrest

/-============================================================================-/
/- Lua values and the event structures (src/lua-application.c)                -/
/-============================================================================-/

/-- A Lua stack value, as far as the event subsystem inspects it.  The
constructors mirror the `LUA_T*` type tags; `vinteger` and `vnumber` are the
two subtypes of `LUA_TNUMBER` distinguished by `lua_isinteger`.  A float is
identified with its 64-bit object representation and a function carries an
identity used by the reference registry model.  Strings are byte lists (Lua
strings may hold arbitrary bytes). -/
inductive LuaValue where
  | vnil
  | vboolean (b : Bool)
  | vinteger (n : Int)
  | vnumber (bits : Nat)
  | vstring (s : List Nat)
  | vlightuserdata (p : Nat)
  | vtable
  | vfunction (id : Nat)
  | vuserdata
  | vthread
deriving DecidableEq

/-- The `lua_isstring` predicate: true for strings and for numbers (which
are convertible to strings), per the Lua C API reference. -/
def LuaValue.lua_isstring : LuaValue → Bool
  | .vstring _ => true
  | .vinteger _ => true
  | .vnumber _ => true
  | _ => false

/-- The `lua_isinteger` predicate. -/
def LuaValue.lua_isinteger : LuaValue → Bool
  | .vinteger _ => true
  | _ => false

/-- `lua_type v == LUA_TSTRING` (the strict type-tag check used by
`LUA_PostEvent` on the handler name). -/
def LuaValue.isStringType : LuaValue → Bool
  | .vstring _ => true
  | _ => false

/-- The `lua_isfunction` predicate. -/
def LuaValue.lua_isfunction : LuaValue → Bool
  | .vfunction _ => true
  | _ => false

/-- The types `APP_CopyEventArguments` can encode (its non-`exit(2)` cases). -/
def LuaValue.isSupported : LuaValue → Bool
  | .vnil | .vboolean _ | .vinteger _ | .vnumber _ | .vstring _ | .vlightuserdata _ => true
  | _ => false

/-- One decoded `struct MAIN_Event`.  The constructors mirror
`APP_EventType_t` plus the union payload that is meaningful for each tag.
The bytes of a `STRING` event are stored inline in the same blob. -/
inductive MAIN_Event where
  | start (argumentCount : Int)
  | paramInteger (value : Int)
  | paramBoolean (value : Bool)
  | paramDouble (bits : Nat)
  | paramString (bytes : List Nat)
  | paramNil
  | paramUserData (value : Nat)
  | eventEnd
deriving DecidableEq

/-- Reading `Event->Data.Start.ArgumentCount`; reading it through any other
union variant yields an unspecified value, modelled as `none`. -/
def MAIN_Event.startCount : MAIN_Event → Option Int
  | .start c => some c
  | _ => none

/-- Reading `Event->Data.String.Value`; unspecified for other variants. -/
def MAIN_Event.stringValue : MAIN_Event → Option (List Nat)
  | .paramString s => some s
  | _ => none

/-- The event is a payload argument (neither `START` nor `END`). -/
def MAIN_Event.isParam : MAIN_Event → Bool
  | .start _ => false
  | .eventEnd => false
  | _ => true

/-- An instance event buffer.  In `lua-application.c` every
`BA_PushBlob`/`BA_AllocateBlob` call on an event buffer stores exactly one
`struct MAIN_Event` (with the string bytes inline), keys are the sequential
1-based blob keys, `BA_GetCount` is the number of stored events and
`BA_Reset` empties the buffer, so at this layer the blob store is the list
of stored events in key order. -/
def APP_EnqueueEventArgument (EventQueue : List MAIN_Event) (Event : MAIN_Event) :
    List MAIN_Event :=
  EventQueue ++ [Event]

/-- `BA_GetBlob` on an event buffer: key `k` holds the `k`-th event. -/
def EQ_GetBlob (EventQueue : List MAIN_Event) (Key : Nat) : Option MAIN_Event :=
  if Key = 0 then none else EventQueue[Key - 1]?

/-- The per-position encoding step of `APP_CopyEventArguments` (the `switch`
on `lua_type`, with `lua_isinteger` splitting `LUA_TNUMBER`); unsupported
types are the `default` case, i.e. `exit(2)`. -/
def APP_EncodeArgument : LuaValue → Option MAIN_Event
  | .vinteger n => some (.paramInteger n)
  | .vnumber bits => some (.paramDouble bits)
  | .vboolean b => some (.paramBoolean b)
  | .vstring s => some (.paramString s)
  | .vlightuserdata p => some (.paramUserData p)
  | .vnil => some .paramNil
  | _ => none

/-- The loop of `APP_CopyEventArguments` over stack positions
`[Index, EndIndex]` (1-based; `Stack[i-1]?` is stack position `i`).
`none` models `exit(2)` on an unsupported argument type. -/
def APP_CopyEventArgumentsLoop (Stack : List LuaValue) (PendingEvents : List MAIN_Event)
    (Index EndIndex : Nat) : Option (List MAIN_Event) :=
  if _h : Index ≤ EndIndex then
    match Stack[Index - 1]? with
    | none => none
    | some v =>
      match APP_EncodeArgument v with
      | none => none
      | some e =>
          APP_CopyEventArgumentsLoop Stack (APP_EnqueueEventArgument PendingEvents e)
            (Index + 1) EndIndex
  else
    some PendingEvents
termination_by EndIndex + 1 - Index
decreasing_by omega

/-- Port of `APP_CopyEventArguments`: enqueue `START` with
`ArgumentCount = EndIndex - (StartIndex - 1)`, encode each stack position,
enqueue `END`. -/
def APP_CopyEventArguments (Stack : List LuaValue) (PendingEvents : List MAIN_Event)
    (StartIndex EndIndex : Nat) : Option (List MAIN_Event) :=
  (APP_CopyEventArgumentsLoop Stack
      (APP_EnqueueEventArgument PendingEvents
        (.start ((EndIndex - (StartIndex - 1) : Nat) : Int)))
      StartIndex EndIndex).map
    fun q2 => APP_EnqueueEventArgument q2 .eventEnd

/-- The `INSTANCE_MASK_*` state bits. -/
def INSTANCE_MASK_ACTIVE : Nat := 1

/-- Mask of the EVENTS_PENDING state bit. -/
def INSTANCE_MASK_EVENTS_PENDING : Nat := 2

/-- Mask of the LOOP_CLOSE_REQUEST state bit. -/
def INSTANCE_MASK_LOOP_CLOSE_REQUEST : Nat := 4

/-- `APP_BIT_SET` on the `uint8_t` state field. -/
def APP_BIT_SET (Value Mask : Nat) : Nat := Value ||| Mask

/-- `APP_BIT_CLEAR` on the `uint8_t` state field: `Value & ~Mask`, where the
complement of an 8-bit mask is `255 ^^^ Mask`. -/
def APP_BIT_CLEAR (Value Mask : Nat) : Nat := Value &&& (255 ^^^ Mask)

/-- The fields of `struct LUA_Instance` that the event subsystem touches:
the registry offset, the state bits, the two event buffers and the two
callback references (`none` = `LUA_REFNIL`). -/
structure LUA_Instance where
  Offset : Nat
  State : Nat
  EventBufferReceive : List MAIN_Event
  EventBufferTemp : List MAIN_Event
  EventHandlerRef : Option Nat
  WarningFunctionRef : Option Nat
deriving DecidableEq

/-- The fields of `struct LUA_Application` the event subsystem touches: the
instance registry (storing instance identities) and the heap of instance
records, modelled as a function from identities to records (pointers are
opaque names). -/
structure LUA_Application where
  InstanceArray : TA_Array Nat
  Instances : Nat → LUA_Instance

/-- Identity of one of the mutexes involved in the event subsystem. -/
inductive MutexId where
  | registry
  | eventM (Offset : Nat)
  | stateM (Offset : Nat)
deriving DecidableEq

/-- One mutex acquisition or release, recorded in program order. -/
inductive LockAction where
  | lock (m : MutexId)
  | unlock (m : MutexId)
deriving DecidableEq

/-- Outcome of a host-visible call: a value pushed for the script, a
`luaL_error` raised on the host stack, or a process exit. -/
inductive PostResult where
  | returned (Success : Bool)
  | luaError
  | procExit (code : Nat)
deriving DecidableEq

/-- The `int64_t` to `size_t` conversion applied when a script-provided
thread id is passed to `TA_IsValid` (64-bit `size_t`). -/
def sizeT (n : Int) : Nat := (n % (2 ^ 64)).toNat

/-- `lua_tointeger` at the given 1-based stack position (only used under a
`lua_isinteger` guard). -/
def lua_tointegerAt (Stack : List LuaValue) (i : Nat) : Int :=
  match Stack[i - 1]? with
  | some (.vinteger n) => n
  | _ => 0

/-- Port of `LUA_PostEvent` (`send`).  Guard: at least two arguments and an
integer first argument, else the call returns `false`.  A non-string second
argument raises `luaL_error`; enqueueing an unsupported argument type exits
the process with code 2.  On a valid target the event is encoded into the
target receive buffer under its event mutex, then EVENTS_PENDING is set and
the state condition signalled under its state mutex. -/
def LUA_PostEvent (Application : LUA_Application) (Stack : List LuaValue) :
    PostResult × LUA_Application :=
  let ArgumentCount := Stack.length
  if 2 ≤ ArgumentCount ∧ (Stack[0]?.elim false LuaValue.lua_isinteger) = true then
    let InstanceId := lua_tointegerAt Stack 1
    if (Stack[1]?.elim false LuaValue.isStringType) = false then
      (.luaError, Application)
    else
      let off := sizeT InstanceId
      let Target :=
        if TA_IsValid Application.InstanceArray off then
          TA_GetObject Application.InstanceArray off
        else none
      match Target with
      | some tid =>
        let inst := Application.Instances tid
        match APP_CopyEventArguments Stack inst.EventBufferReceive 2 ArgumentCount with
        | none => (.procExit 2, Application)
        | some buf =>
          let inst2 := { inst with
            EventBufferReceive := buf,
            State := APP_BIT_SET inst.State INSTANCE_MASK_EVENTS_PENDING }
          (.returned true,
           { Application with
             Instances := fun i => if i = tid then inst2 else Application.Instances i })
      | none => (.returned false, Application)
  else
    (.returned false, Application)

/-- The `while (Continue)` loop of `LUA_BroadcastEvent`.  Each iteration
locks the registry mutex, re-reads the capacity, handles at most one offset
and unlocks the registry mutex again; the iteration that finds
`InstanceOffset > InstanceCapacity` still performs one lock/unlock pair and
clears `Continue`.  The fuel argument only bounds the iteration count; since
enqueueing never touches the registry the capacity is stable and
`capacity + 2` fuel is always sufficient.  An unsupported argument type
exits the process (`none`) while the registry and event mutexes are held. -/
def LUA_BroadcastTarget (Application : LUA_Application) (tid : Nat)
    (buf : List MAIN_Event) : LUA_Application :=
  { Application with Instances := fun i => if i = tid then
      { Application.Instances tid with
        EventBufferReceive := buf,
        State := APP_BIT_SET (Application.Instances tid).State INSTANCE_MASK_EVENTS_PENDING }
    else Application.Instances i }

/-- Body of the `while (Continue)` loop of `LUA_BroadcastEvent` (see the
comment above `LUA_BroadcastTarget` for the per-target update). -/
def LUA_BroadcastLoop (Application : LUA_Application) (Stack : List LuaValue)
    (InstanceOffset : Nat) : Nat → List LockAction × Option LUA_Application
  | 0 => ([], none)
  | fuel + 1 =>
    if InstanceOffset ≤ TA_GetCapacity Application.InstanceArray then
      match (if TA_IsValid Application.InstanceArray InstanceOffset then
               TA_GetObject Application.InstanceArray InstanceOffset else none) with
      | some tid =>
        match APP_CopyEventArguments Stack
            (Application.Instances tid).EventBufferReceive 2 Stack.length with
        | none =>
          ([.lock .registry, .lock (.eventM InstanceOffset)], none)
        | some buf =>
          (.lock .registry :: .lock (.eventM InstanceOffset) ::
             .unlock (.eventM InstanceOffset) :: .lock (.stateM InstanceOffset) ::
             .unlock (.stateM InstanceOffset) :: .unlock .registry ::
             (LUA_BroadcastLoop (LUA_BroadcastTarget Application tid buf) Stack
               (InstanceOffset + 1) fuel).1,
           (LUA_BroadcastLoop (LUA_BroadcastTarget Application tid buf) Stack
             (InstanceOffset + 1) fuel).2)
      | none =>
        (.lock .registry :: .unlock .registry ::
           (LUA_BroadcastLoop Application Stack (InstanceOffset + 1) fuel).1,
         (LUA_BroadcastLoop Application Stack (InstanceOffset + 1) fuel).2)
    else
      ([.lock .registry, .unlock .registry], some Application)

/-- Port of `LUA_BroadcastEvent` (`broadcast`).  Guard: at least two
arguments and `lua_isstring` on the second (which also accepts numbers);
otherwise the call silently returns no values.  Returns the lock trace and
the resulting application (`none` = process exit). -/
def LUA_BroadcastEvent (Application : LUA_Application) (Stack : List LuaValue) :
    List LockAction × Option LUA_Application :=
  let ArgumentCount := Stack.length
  if 2 ≤ ArgumentCount ∧ (Stack[1]?.elim false LuaValue.lua_isstring) = true then
    LUA_BroadcastLoop Application Stack 1 (TA_GetCapacity Application.InstanceArray + 2)
  else
    ([], some Application)

/-- Port of `LUA_CloseEventLoop` (`stoploop`): set LOOP_CLOSE_REQUEST and
signal, under the state mutex. -/
def LUA_CloseEventLoop (Instance : LUA_Instance) : LUA_Instance :=
  { Instance with
    State := APP_BIT_SET Instance.State INSTANCE_MASK_LOOP_CLOSE_REQUEST }

/-- Port of `APP_SendExitEventToParent`: under the parent event mutex,
append `START(2)`, the exit-event-name `STRING` (bytes copied inline via
`BA_AllocateBlob`), the child offset as `INTEGER`, and `END`; then set
EVENTS_PENDING and signal under the parent state mutex. -/
def APP_SendExitEventToParent (ParentInstance : LUA_Instance) (ExitEventName : List Nat)
    (Offset : Nat) : LUA_Instance :=
  let q := ParentInstance.EventBufferReceive
  let q := APP_EnqueueEventArgument q (.start 2)
  let q := APP_EnqueueEventArgument q (.paramString ExitEventName)
  let q := APP_EnqueueEventArgument q (.paramInteger (Offset : Int))
  let q := APP_EnqueueEventArgument q .eventEnd
  { ParentInstance with
    EventBufferReceive := q,
    State := APP_BIT_SET ParentInstance.State INSTANCE_MASK_EVENTS_PENDING }

/-- Port of `SERVICE_NotifyInstance`: enqueue
`START(2), STRING(EventName), INTEGER(ControlCode), END` to the instance at
offset 1 when present, then set EVENTS_PENDING and signal. -/
def SERVICE_NotifyInstance (Application : LUA_Application) (EventName : List Nat)
    (ControlCode : Nat) : LUA_Application :=
  match (if TA_IsValid Application.InstanceArray 1 then
           TA_GetObject Application.InstanceArray 1 else none) with
  | none => Application
  | some tid =>
    let inst := Application.Instances tid
    let q := inst.EventBufferReceive
    let q := APP_EnqueueEventArgument q (.start 2)
    let q := APP_EnqueueEventArgument q (.paramString EventName)
    let q := APP_EnqueueEventArgument q (.paramInteger (ControlCode : Int))
    let q := APP_EnqueueEventArgument q .eventEnd
    let inst2 := { inst with
      EventBufferReceive := q,
      State := APP_BIT_SET inst.State INSTANCE_MASK_EVENTS_PENDING }
    { Application with
      Instances := fun i => if i = tid then inst2 else Application.Instances i }

/-- One host call performed by `LUA_ProcessSingleEvent` at an `END` blob:
the resolved global, the `ArgumentCount` passed to `lua_pcall`, and the
pushed parameter events in push order. -/
structure LUA_Dispatch where
  FunctionName : List Nat
  ArgumentCount : Int
  Params : List MAIN_Event
deriving DecidableEq

/-- The argument-processing loop of `LUA_ProcessSingleEvent`: collect pushed
parameters until `END` (which fires the call) or until the token index runs
past `EventCount`.  Returns the tokens consumed by the loop, the pushed
parameters, and whether `END` was reached.  A `START` blob in argument
position is the unknown-event-type `exit(4)`; a failed `BA_GetBlob` leaves
the C `Event` pointer uninitialised (`none`). -/
def LUA_ProcessArgsLoop (PendingEvents : List MAIN_Event) (EventCount TokenIndex : Nat) :
    Option (Nat × List MAIN_Event × Bool) :=
  if _h : TokenIndex ≤ EventCount then
    match EQ_GetBlob PendingEvents TokenIndex with
    | none => none
    | some e =>
      match e with
      | .paramBoolean _ | .paramInteger _ | .paramDouble _ | .paramString _
      | .paramNil | .paramUserData _ =>
        (LUA_ProcessArgsLoop PendingEvents EventCount (TokenIndex + 1)).map
          fun r => (r.1 + 1, e :: r.2.1, r.2.2)
      | .eventEnd => some (1, [], true)
      | .start _ => none
  else
    some (0, [], false)
termination_by EventCount + 1 - TokenIndex
decreasing_by omega

/-- Port of `LUA_ProcessSingleEvent`: read `ArgumentCount` from the `START`
blob, the handler name from the following `STRING` blob, resolve the global
(`exit(3)` when it is nil, modelled by the `defined` predicate), then push
arguments until `END` fires `lua_pcall` with `ArgumentCount` arguments.
Returns the number of tokens consumed and the dispatch, if any; `lua_pcall`
failures are printed and skipped, so a dispatch is recorded regardless of
the call outcome. -/
def LUA_ProcessSingleEvent (defined : List Nat → Bool) (PendingEvents : List MAIN_Event)
    (TokenIndex EventCount : Nat) : Option (Nat × Option LUA_Dispatch) :=
  match EQ_GetBlob PendingEvents TokenIndex with
  | none => none
  | some ev =>
    match ev.startCount with
    | none => none
    | some c =>
      let ArgumentCount : Int := c - 1
      match EQ_GetBlob PendingEvents (TokenIndex + 1) with
      | none => none
      | some nameEv =>
        match nameEv.stringValue with
        | none => none
        | some FunctionName =>
          if defined FunctionName then
            match LUA_ProcessArgsLoop PendingEvents EventCount (TokenIndex + 2) with
            | none => none
            | some r =>
              some (2 + r.1,
                    if r.2.2 then some ⟨FunctionName, ArgumentCount, r.2.1⟩ else none)
          else none

/-- The `while (TokenIndex <= TokenCount)` walk of
`LUA_ProcessEventsIfNeeded`, from key 1 upward.  Every processed event
consumes at least two tokens, so `TokenCount + 1` fuel always suffices;
exhausted fuel is `none`. -/
def LUA_ProcessEventsLoop (defined : List Nat → Bool) (PendingEvents : List MAIN_Event)
    (TokenCount : Nat) : Nat → Nat → Option (List LUA_Dispatch)
  | _, 0 => none
  | TokenIndex, fuel + 1 =>
    if TokenIndex ≤ TokenCount then
      match LUA_ProcessSingleEvent defined PendingEvents TokenIndex TokenCount with
      | none => none
      | some r =>
        (LUA_ProcessEventsLoop defined PendingEvents TokenCount (TokenIndex + r.1) fuel).map
          fun rest => r.2.toList ++ rest
    else
      some []

/-- Port of `LUA_ProcessEventsIfNeeded` (`drain`).  Under the event mutex:
if the receive buffer is empty, unlock and return; otherwise swap the
receive and temp buffers, clear EVENTS_PENDING under the state mutex (still
holding the event mutex), unlock, process the swapped-out buffer from key 1,
then `BA_Reset` it.  Returns the lock trace and the updated instance with
the dispatches in invocation order (`none` = process exit while decoding). -/
def LUA_ProcessEventsIfNeeded (defined : List Nat → Bool) (Instance : LUA_Instance) :
    List LockAction × Option (LUA_Instance × List LUA_Dispatch) :=
  let o := Instance.Offset
  let TokenCount := Instance.EventBufferReceive.length
  if TokenCount = 0 then
    ([.lock (.eventM o), .unlock (.eventM o)], some (Instance, []))
  else
    let PendingEvents := Instance.EventBufferReceive
    let inst2 := { Instance with
      EventBufferReceive := Instance.EventBufferTemp,
      EventBufferTemp := PendingEvents,
      State := APP_BIT_CLEAR Instance.State INSTANCE_MASK_EVENTS_PENDING }
    let tr := [LockAction.lock (.eventM o), .lock (.stateM o), .unlock (.stateM o),
               .unlock (.eventM o)]
    match LUA_ProcessEventsLoop defined PendingEvents TokenCount 1 (TokenCount + 1) with
    | none => (tr, none)
    | some ds => (tr, some ({ inst2 with EventBufferTemp := [] }, ds))

/-- One iteration of the `while (Continue)` body of `LUA_RunEventLoop`:
drain, then under the state mutex wait until a stop-mask bit is set and
recompute `Continue`.  Returns the instance after the drain, the dispatches,
whether the condition wait would block (no stop-mask bit set), and
`Continue`. -/
def LUA_RunEventLoopIter (defined : List Nat → Bool) (Instance : LUA_Instance) :
    Option (LUA_Instance × List LUA_Dispatch × Bool × Bool) :=
  let MASK_STOP := INSTANCE_MASK_EVENTS_PENDING ||| INSTANCE_MASK_LOOP_CLOSE_REQUEST
  match (LUA_ProcessEventsIfNeeded defined Instance).2 with
  | none => none
  | some r =>
    some (r.1, r.2,
          (r.1.State &&& MASK_STOP) == 0,
          (r.1.State &&& INSTANCE_MASK_LOOP_CLOSE_REQUEST) == 0)

/-- The complete set of writes to `LUA_Instance.State` on a live instance in
`lua-application.c`: `LUA_LuaThread` sets ACTIVE; `LUA_PostEvent`,
`LUA_BroadcastEvent`, `APP_SendExitEventToParent` and
`SERVICE_NotifyInstance` set EVENTS_PENDING; `LUA_ProcessEventsIfNeeded`
clears EVENTS_PENDING; `LUA_CloseEventLoop` sets LOOP_CLOSE_REQUEST. -/
inductive StateWrite where
  | setActive
  | setEventsPending
  | clearEventsPending
  | setLoopCloseRequest
deriving DecidableEq

/-- Effect of one state write on the `uint8_t` state field. -/
def StateWrite.applyWrite : StateWrite → Nat → Nat
  | .setActive, s => APP_BIT_SET s INSTANCE_MASK_ACTIVE
  | .setEventsPending, s => APP_BIT_SET s INSTANCE_MASK_EVENTS_PENDING
  | .clearEventsPending, s => APP_BIT_CLEAR s INSTANCE_MASK_EVENTS_PENDING
  | .setLoopCloseRequest, s => APP_BIT_SET s INSTANCE_MASK_LOOP_CLOSE_REQUEST

/-- The per-state Lua reference registry (`luaL_ref` / `luaL_unref` on
`LUA_REGISTRYINDEX`), modelled with fresh integer keys mapping to the
registered value. -/
structure LuaRefRegistry where
  NextRef : Nat
  Live : List (Nat × LuaValue)
deriving DecidableEq

/-- `luaL_ref`: pop a value, store it under a fresh reference. -/
def luaL_ref (Registry : LuaRefRegistry) (v : LuaValue) : Nat × LuaRefRegistry :=
  (Registry.NextRef,
   { NextRef := Registry.NextRef + 1, Live := (Registry.NextRef, v) :: Registry.Live })

/-- `luaL_unref`: release a reference. -/
def luaL_unref (Registry : LuaRefRegistry) (Ref : Nat) : LuaRefRegistry :=
  { Registry with Live := Registry.Live.filter fun p => p.1 != Ref }

/-- Port of `LUA_SetWarningFunction` (`setwarningfunction`): release any
previous reference, reset the warning hook, then bind the new function (if
the first argument is a function) under a fresh reference.  Never raises. -/
def LUA_SetWarningFunction (Instance : LUA_Instance) (Registry : LuaRefRegistry)
    (Arg1 : Option LuaValue) : LUA_Instance × LuaRefRegistry :=
  let cleared :=
    match Instance.WarningFunctionRef with
    | some r => ({ Instance with WarningFunctionRef := none }, luaL_unref Registry r)
    | none => (Instance, Registry)
  let inst := cleared.1
  let reg := cleared.2
  match Arg1 with
  | some v =>
    if v.lua_isfunction then
      let r := luaL_ref reg v
      ({ inst with WarningFunctionRef := some r.1 }, r.2)
    else (inst, reg)
  | none => (inst, reg)

/-- Port of `LUA_SetEventHandler` (`seteventhandler`): raises
`luaL_error("EventHandler already set")` when a handler reference is already
installed; otherwise requires a function argument and binds it. -/
def LUA_SetEventHandler (Instance : LUA_Instance) (Registry : LuaRefRegistry)
    (Arg1 : Option LuaValue) : Except String (LUA_Instance × LuaRefRegistry) :=
  if Instance.EventHandlerRef.isSome then
    .error "EventHandler already set"
  else
    match Arg1 with
    | some v =>
      if v.lua_isfunction then
        let r := luaL_ref Registry v
        .ok ({ Instance with EventHandlerRef := some r.1 }, r.2)
      else .error "seteventhandler expects a function"
    | none => .error "seteventhandler expects a function"

/-- The blob sequence of one well-formed encoded event: a `START` blob
recording `arg_count = Params.length + 1`, the handler-name `STRING`, the
payload arguments, and an `END` blob. -/
def APP_EventBlock (FunctionName : List Nat) (Params : List MAIN_Event) : List MAIN_Event :=
  .start ((Params.length : Int) + 1) :: .paramString FunctionName :: Params ++ [.eventEnd]

/-- Executable well-formedness check of one event block: exactly one leading
`START` whose count equals the number of blobs between `START` and `END`, a
`STRING` first argument, payload arguments in between, one trailing `END`. -/
def APP_IsWellFormedEventBlock (b : List MAIN_Event) : Bool :=
  match b with
  | .start c :: .paramString _ :: rest =>
      decide (1 ≤ rest.length) && rest.dropLast.all MAIN_Event.isParam &&
      (rest.getLast? == some .eventEnd) && (c == (rest.length : Int))
  | _ => false

/-- A buffer described as a sequence of (handler name, payload) blocks. -/
def APP_FlattenBlocks : List (List Nat × List MAIN_Event) → List MAIN_Event
  | [] => []
  | b :: rest => APP_EventBlock b.1 b.2 ++ APP_FlattenBlocks rest

/-- The blocks are well-formed and their handlers resolve. -/
def APP_EventBlocksWF (defined : List Nat → Bool) (Blocks : List (List Nat × List MAIN_Event)) :
    Prop :=
  ∀ b ∈ Blocks, (∀ e ∈ b.2, e.isParam = true) ∧ defined b.1 = true

/-- The host call a well-formed block produces on drain. -/
def APP_DispatchOfBlock (b : List Nat × List MAIN_Event) : LUA_Dispatch :=
  ⟨b.1, (b.2.length : Int), b.2⟩

theorem APP_EventBlock_wellFormed (FunctionName : List Nat) (Params : List MAIN_Event)
    (h : ∀ e ∈ Params, e.isParam = true) :
    APP_IsWellFormedEventBlock (APP_EventBlock FunctionName Params) = true := by
  unfold APP_IsWellFormedEventBlock APP_EventBlock
  simp [List.dropLast_concat, List.getLast?_concat, List.all_eq_true, h]
  exact h

/-- The total encoding of one supported stack value (junk for unsupported
values, which the encoder rejects before this is consulted). -/
def APP_EncodedParam (v : LuaValue) : MAIN_Event :=
  (APP_EncodeArgument v).getD .paramNil

theorem APP_EncodeArgument_supported (v : LuaValue) (h : v.isSupported = true) :
    APP_EncodeArgument v = some (APP_EncodedParam v) := by
  cases v <;> simp_all [LuaValue.isSupported, APP_EncodeArgument, APP_EncodedParam]

theorem APP_EncodedParam_isParam (v : LuaValue) (h : v.isSupported = true) :
    (APP_EncodedParam v).isParam = true := by
  cases v <;> simp_all [LuaValue.isSupported, APP_EncodedParam, APP_EncodeArgument,
    MAIN_Event.isParam]

theorem APP_CopyEventArgumentsLoop_spec (Stack : List LuaValue) (vs : List LuaValue) :
    ∀ (q : List MAIN_Event) (i : Nat),
      1 ≤ i → Stack.drop (i - 1) = vs → i + vs.length = Stack.length + 1 →
      (∀ v ∈ vs, v.isSupported = true) →
      APP_CopyEventArgumentsLoop Stack q i Stack.length =
        some (q ++ vs.map APP_EncodedParam) := by
  induction vs with
  | nil =>
    intro q i h1 hdrop hlen _
    simp only [List.length_nil] at hlen
    unfold APP_CopyEventArgumentsLoop
    rw [dif_neg (by omega)]
    simp
  | cons v vs' ih =>
    intro q i h1 hdrop hlen hsup
    have hv : Stack[i - 1]? = some v := by
      have h0 := congrArg (fun l => l[0]?) hdrop
      simpa [List.getElem?_drop] using h0
    have hdrop' : Stack.drop i = vs' := by
      have h0 := congrArg List.tail hdrop
      have h2 : i - 1 + 1 = i := by omega
      rw [List.tail_drop, h2] at h0
      simpa using h0
    have hlen2 : i + 1 + vs'.length = Stack.length + 1 := by
      simp only [List.length_cons] at hlen
      omega
    unfold APP_CopyEventArgumentsLoop
    rw [dif_pos (by simp only [List.length_cons] at hlen; omega)]
    simp only [hv, APP_EncodeArgument_supported v (hsup v (by simp))]
    rw [ih (APP_EnqueueEventArgument q (APP_EncodedParam v)) (i + 1) (by omega) hdrop' hlen2
      (fun u hu => hsup u (by simp [hu]))]
    simp [APP_EnqueueEventArgument]

/-- The encoding produced by `APP_CopyEventArguments` for a stack whose
position 2 is the handler-name string: exactly the well-formed block of the
encoded payload, appended to the buffer. -/
theorem APP_CopyEventArguments_encode (v0 : LuaValue) (name : List Nat)
    (rest : List LuaValue) (q : List MAIN_Event)
    (hsup : ∀ v ∈ rest, v.isSupported = true) :
    APP_CopyEventArguments (v0 :: .vstring name :: rest) q 2 (rest.length + 2) =
      some (q ++ APP_EventBlock name (rest.map APP_EncodedParam)) := by
  unfold APP_CopyEventArguments
  have hloop := APP_CopyEventArgumentsLoop_spec (v0 :: .vstring name :: rest)
    (.vstring name :: rest)
    (APP_EnqueueEventArgument q (.start ((rest.length + 2 - (2 - 1) : Nat) : Int))) 2
    (by omega) (by simp) (by simp; omega)
    (by
      intro u hu
      rcases List.mem_cons.mp hu with h | h
      · rw [h]; rfl
      · exact hsup u h)
  have hlen : (v0 :: LuaValue.vstring name :: rest).length = rest.length + 2 := by simp
  rw [hlen] at hloop
  rw [hloop]
  simp only [Option.map_some']
  unfold APP_EnqueueEventArgument APP_EventBlock
  simp only [List.map_cons]
  have hc : ((rest.length + 2 - (2 - 1) : Nat) : Int) =
      ((rest.map APP_EncodedParam).length : Int) + 1 := by
    simp only [List.length_map]
    push_cast
    omega
  rw [hc]
  simp [APP_EncodedParam, APP_EncodeArgument]

theorem EQ_GetBlob_append (pre l : List MAIN_Event) (j : Nat) :
    EQ_GetBlob (pre ++ l) (pre.length + 1 + j) = l[j]? := by
  unfold EQ_GetBlob
  rw [if_neg (by omega)]
  have h1 : pre.length + 1 + j - 1 = pre.length + j := by omega
  rw [h1]
  rw [List.getElem?_append_right (by omega)]
  congr 1
  omega

theorem LUA_ProcessArgsLoop_param_step (buf : List MAIN_Event) (EventCount TokenIndex : Nat)
    (e : MAIN_Event) (hT : TokenIndex ≤ EventCount)
    (hget : EQ_GetBlob buf TokenIndex = some e) (he : e.isParam = true) :
    LUA_ProcessArgsLoop buf EventCount TokenIndex =
      (LUA_ProcessArgsLoop buf EventCount (TokenIndex + 1)).map
        fun r => (r.1 + 1, e :: r.2.1, r.2.2) := by
  conv_lhs => unfold LUA_ProcessArgsLoop
  rw [dif_pos hT, hget]
  cases e <;> simp_all [MAIN_Event.isParam]

theorem LUA_ProcessArgsLoop_end_step (buf : List MAIN_Event) (EventCount TokenIndex : Nat)
    (hT : TokenIndex ≤ EventCount)
    (hget : EQ_GetBlob buf TokenIndex = some .eventEnd) :
    LUA_ProcessArgsLoop buf EventCount TokenIndex = some (1, [], true) := by
  unfold LUA_ProcessArgsLoop
  rw [dif_pos hT, hget]

theorem LUA_ProcessArgsLoop_block (pre ps suffix : List MAIN_Event)
    (hps : ∀ e ∈ ps, e.isParam = true) :
    LUA_ProcessArgsLoop (pre ++ (ps ++ .eventEnd :: suffix))
      (pre ++ (ps ++ .eventEnd :: suffix)).length (pre.length + 1) =
      some (ps.length + 1, ps, true) := by
  induction ps generalizing pre with
  | nil =>
    apply LUA_ProcessArgsLoop_end_step
    · simp
    · have := EQ_GetBlob_append pre (MAIN_Event.eventEnd :: suffix) 0
      simpa using this
  | cons e ps' ih =>
    have hT : pre.length + 1 ≤ (pre ++ ((e :: ps') ++ .eventEnd :: suffix)).length := by
      simp
    have hget : EQ_GetBlob (pre ++ ((e :: ps') ++ .eventEnd :: suffix)) (pre.length + 1) =
        some e := by
      have := EQ_GetBlob_append pre ((e :: ps') ++ MAIN_Event.eventEnd :: suffix) 0
      simpa using this
    rw [LUA_ProcessArgsLoop_param_step _ _ _ e hT hget (hps e (by simp))]
    have hre : pre ++ ((e :: ps') ++ MAIN_Event.eventEnd :: suffix) =
        (pre ++ [e]) ++ (ps' ++ MAIN_Event.eventEnd :: suffix) := by
      simp
    have hidx : pre.length + 1 + 1 = (pre ++ [e]).length + 1 := by
      simp
    rw [hre, hidx]
    rw [ih (pre ++ [e]) (fun u hu => hps u (by simp [hu]))]
    simp [Option.map_some']

theorem LUA_ProcessSingleEvent_block (defined : List Nat → Bool) (name : List Nat)
    (ps : List MAIN_Event) (pre suffix : List MAIN_Event)
    (hps : ∀ e ∈ ps, e.isParam = true) (hdef : defined name = true) :
    LUA_ProcessSingleEvent defined (pre ++ (APP_EventBlock name ps ++ suffix))
      (pre.length + 1) (pre ++ (APP_EventBlock name ps ++ suffix)).length =
      some (ps.length + 3, some ⟨name, (ps.length : Int), ps⟩) := by
  have hshape : APP_EventBlock name ps ++ suffix =
      .start ((ps.length : Int) + 1) :: .paramString name ::
        (ps ++ MAIN_Event.eventEnd :: suffix) := by
    unfold APP_EventBlock
    simp
  have hget0 : EQ_GetBlob (pre ++ (APP_EventBlock name ps ++ suffix)) (pre.length + 1) =
      some (.start ((ps.length : Int) + 1)) := by
    have := EQ_GetBlob_append pre (APP_EventBlock name ps ++ suffix) 0
    rw [hshape] at this ⊢
    simpa using this
  have hget1 : EQ_GetBlob (pre ++ (APP_EventBlock name ps ++ suffix)) (pre.length + 1 + 1) =
      some (.paramString name) := by
    have := EQ_GetBlob_append pre (APP_EventBlock name ps ++ suffix) 1
    rw [hshape] at this ⊢
    simpa using this
  have hargs : LUA_ProcessArgsLoop (pre ++ (APP_EventBlock name ps ++ suffix))
      (pre ++ (APP_EventBlock name ps ++ suffix)).length (pre.length + 1 + 2) =
      some (ps.length + 1, ps, true) := by
    have hre : pre ++ (APP_EventBlock name ps ++ suffix) =
        (pre ++ [.start ((ps.length : Int) + 1), .paramString name]) ++
          (ps ++ MAIN_Event.eventEnd :: suffix) := by
      rw [hshape]
      simp
    have hlen2 : pre.length + 1 + 2 =
        (pre ++ [MAIN_Event.start ((ps.length : Int) + 1), .paramString name]).length + 1 := by
      simp
    rw [hre, hlen2]
    exact LUA_ProcessArgsLoop_block _ ps suffix hps
  unfold LUA_ProcessSingleEvent
  rw [hget0]
  simp only [MAIN_Event.startCount]
  rw [hget1]
  simp only [MAIN_Event.stringValue]
  rw [if_pos hdef]
  rw [hargs]
  simp
  omega

theorem APP_EventBlock_length (name : List Nat) (ps : List MAIN_Event) :
    (APP_EventBlock name ps).length = ps.length + 3 := by
  unfold APP_EventBlock
  simp

theorem APP_FlattenBlocks_length_ge (Blocks : List (List Nat × List MAIN_Event)) :
    Blocks.length ≤ (APP_FlattenBlocks Blocks).length := by
  induction Blocks with
  | nil => simp [APP_FlattenBlocks]
  | cons b rest ih =>
    unfold APP_FlattenBlocks
    rw [List.length_append, APP_EventBlock_length]
    simp only [List.length_cons]
    omega

theorem LUA_ProcessEventsLoop_blocks (defined : List Nat → Bool)
    (Blocks : List (List Nat × List MAIN_Event)) :
    ∀ (pre : List MAIN_Event) (fuel : Nat),
      APP_EventBlocksWF defined Blocks →
      Blocks.length + 1 ≤ fuel →
      LUA_ProcessEventsLoop defined (pre ++ APP_FlattenBlocks Blocks)
        (pre ++ APP_FlattenBlocks Blocks).length (pre.length + 1) fuel =
        some (Blocks.map APP_DispatchOfBlock) := by
  induction Blocks with
  | nil =>
    intro pre fuel _ hfuel
    obtain ⟨f, rfl⟩ : ∃ f, fuel = f + 1 := ⟨fuel - 1, by omega⟩
    unfold LUA_ProcessEventsLoop
    rw [if_neg (by simp [APP_FlattenBlocks])]
    simp
  | cons b rest ih =>
    intro pre fuel hwf hfuel
    obtain ⟨f, rfl⟩ : ∃ f, fuel = f + 1 := ⟨fuel - 1, by omega⟩
    have hwfb := hwf b (by simp)
    have hsingle := LUA_ProcessSingleEvent_block defined b.1 b.2 pre
      (APP_FlattenBlocks rest) hwfb.1 hwfb.2
    have hflat : APP_FlattenBlocks (b :: rest) =
        APP_EventBlock b.1 b.2 ++ APP_FlattenBlocks rest := rfl
    unfold LUA_ProcessEventsLoop
    rw [hflat]
    rw [if_pos (by
      rw [List.length_append, List.length_append, APP_EventBlock_length]
      omega)]
    rw [hsingle]
    have hre : pre ++ (APP_EventBlock b.1 b.2 ++ APP_FlattenBlocks rest) =
        (pre ++ APP_EventBlock b.1 b.2) ++ APP_FlattenBlocks rest := by
      simp
    have hidx : pre.length + 1 + (b.2.length + 3) =
        (pre ++ APP_EventBlock b.1 b.2).length + 1 := by
      rw [List.length_append, APP_EventBlock_length]
      omega
    simp only []
    rw [hre, hidx]
    rw [ih (pre ++ APP_EventBlock b.1 b.2) f
      (fun u hu => hwf u (by simp [hu])) (by simp at hfuel ⊢; omega)]
    simp [APP_DispatchOfBlock]

/-- Draining a buffer that consists of well-formed event blocks invokes the
named handlers in block order, each with its own payload, and each
`lua_pcall` receives `ArgumentCount = arg_count - 1` arguments equal to the
number of pushed payload events. -/
theorem LUA_ProcessEventsIfNeeded_blocks (defined : List Nat → Bool)
    (Instance : LUA_Instance) (Blocks : List (List Nat × List MAIN_Event))
    (hwf : APP_EventBlocksWF defined Blocks)
    (hbuf : Instance.EventBufferReceive = APP_FlattenBlocks Blocks) :
    ((LUA_ProcessEventsIfNeeded defined Instance).2).map Prod.snd =
      some (Blocks.map APP_DispatchOfBlock) := by
  unfold LUA_ProcessEventsIfNeeded
  rw [hbuf]
  by_cases hnil : Blocks = []
  · subst hnil
    rw [if_pos (by simp [APP_FlattenBlocks])]
    simp
  · have hlen : 0 < (APP_FlattenBlocks Blocks).length := by
      have h1 := APP_FlattenBlocks_length_ge Blocks
      have h2 : 0 < Blocks.length := by
        cases Blocks with
        | nil => exact absurd rfl hnil
        | cons b r => simp
      omega
    rw [if_neg (by omega)]
    have hwalk := LUA_ProcessEventsLoop_blocks defined Blocks []
      ((APP_FlattenBlocks Blocks).length + 1) hwf
      (by
        have := APP_FlattenBlocks_length_ge Blocks
        omega)
    simp only [List.nil_append, List.length_nil, Nat.zero_add] at hwalk
    simp only [hwalk]
    simp

theorem TA_GetObject_of_isValid {α : Type} (arr : TA_Array α) (o : Nat)
    (h : TA_IsValid arr o = true) : ∃ t, TA_GetObject arr o = some t := by
  unfold TA_IsValid at h
  simp only [Bool.and_eq_true] at h
  exact Option.isSome_iff_exists.mp h.2

/-- The blob sequence `APP_CopyEventArguments` appends for an arbitrary
supported argument window `2..arg_count`: `START(arg_count - 1)`, the
encoded stack values, `END`. -/
def APP_RawBlock (args : List LuaValue) : List MAIN_Event :=
  .start ((args.length : Int)) :: (args.map APP_EncodedParam ++ [.eventEnd])

theorem APP_RawBlock_cons_string (name : List Nat) (rest : List LuaValue) :
    APP_RawBlock (.vstring name :: rest) = APP_EventBlock name (rest.map APP_EncodedParam) := by
  unfold APP_RawBlock APP_EventBlock
  simp only [List.map_cons, List.length_cons, List.length_map]
  have h1 : ((rest.length + 1 : Nat) : Int) = ((rest.length : Nat) : Int) + 1 := by push_cast; rfl
  rw [h1]
  rfl

/-- The encoding produced by `APP_CopyEventArguments` over the whole window
`2..arg_count` of a stack with supported payload values. -/
theorem APP_CopyEventArguments_encode_gen (v0 : LuaValue) (args : List LuaValue)
    (q : List MAIN_Event) (hsup : ∀ v ∈ args, v.isSupported = true) :
    APP_CopyEventArguments (v0 :: args) q 2 (args.length + 1) =
      some (q ++ APP_RawBlock args) := by
  unfold APP_CopyEventArguments
  have hloop := APP_CopyEventArgumentsLoop_spec (v0 :: args) args
    (APP_EnqueueEventArgument q (.start ((args.length + 1 - (2 - 1) : Nat) : Int))) 2
    (by omega) (by simp) (by simp; omega) hsup
  have hlen : (v0 :: args).length = args.length + 1 := by simp
  rw [hlen] at hloop
  rw [hloop]
  simp only [Option.map_some']
  unfold APP_EnqueueEventArgument APP_RawBlock
  have hc : ((args.length + 1 - (2 - 1) : Nat) : Int) = ((args.length : Nat) : Int) := by
    push_cast
    omega
  rw [hc]
  simp

/-- The effect of enqueueing one encoded event to a target instance: append
the block to its receive buffer and set EVENTS_PENDING (the common tail of
`LUA_PostEvent`, `LUA_BroadcastEvent` and `SERVICE_NotifyInstance`). -/
def APP_DeliverBlock (app : LUA_Application) (t : Nat) (block : List MAIN_Event) :
    LUA_Application :=
  { app with Instances := fun i => if i = t then
      { app.Instances t with
        EventBufferReceive := (app.Instances t).EventBufferReceive ++ block,
        State := APP_BIT_SET (app.Instances t).State INSTANCE_MASK_EVENTS_PENDING }
    else app.Instances i }

theorem APP_DeliverBlock_array (app : LUA_Application) (t : Nat) (b : List MAIN_Event) :
    (APP_DeliverBlock app t b).InstanceArray = app.InstanceArray := rfl

theorem APP_DeliverBlock_self (app : LUA_Application) (t : Nat) (b : List MAIN_Event) :
    (APP_DeliverBlock app t b).Instances t =
      { app.Instances t with
        EventBufferReceive := (app.Instances t).EventBufferReceive ++ b,
        State := APP_BIT_SET (app.Instances t).State INSTANCE_MASK_EVENTS_PENDING } := by
  unfold APP_DeliverBlock
  simp

theorem APP_DeliverBlock_other (app : LUA_Application) (t i : Nat) (b : List MAIN_Event)
    (h : i ≠ t) : (APP_DeliverBlock app t b).Instances i = app.Instances i := by
  unfold APP_DeliverBlock
  simp [h]

/-- Successful `LUA_PostEvent`: integer target id, string handler name,
supported payload, valid registry offset.  The event block is appended to
the target receive buffer and EVENTS_PENDING is set; the call pushes
`true`. -/
theorem LUA_PostEvent_valid (app : LUA_Application) (tid0 : Int) (name : List Nat)
    (rest : List LuaValue) (t : Nat)
    (hsup : ∀ v ∈ rest, v.isSupported = true)
    (hv : TA_IsValid app.InstanceArray (sizeT tid0) = true)
    (hget : TA_GetObject app.InstanceArray (sizeT tid0) = some t) :
    LUA_PostEvent app (.vinteger tid0 :: .vstring name :: rest) =
      (.returned true,
       APP_DeliverBlock app t (APP_EventBlock name (rest.map APP_EncodedParam))) := by
  have hcopy := APP_CopyEventArguments_encode_gen (.vinteger tid0) (.vstring name :: rest)
    ((app.Instances t).EventBufferReceive)
    (by
      intro u hu
      rcases List.mem_cons.mp hu with h | h
      · rw [h]; rfl
      · exact hsup u h)
  rw [APP_RawBlock_cons_string] at hcopy
  simp only [List.length_cons] at hcopy
  unfold LUA_PostEvent
  rw [if_pos (by refine ⟨by simp, rfl⟩)]
  simp only [lua_tointegerAt, Nat.sub_self, List.getElem?_cons_zero, List.getElem?_cons_succ,
    Option.elim, LuaValue.isStringType, Bool.true_eq_false, if_false, hv, eq_self_iff_true,
    if_true, hget, List.length_cons, hcopy]
  rfl

/-- `LUA_PostEvent` on an invalid registry offset: pushes `false`, leaves
the application unchanged. -/
theorem LUA_PostEvent_invalid (app : LUA_Application) (tid0 : Int) (name : List Nat)
    (rest : List LuaValue)
    (hv : TA_IsValid app.InstanceArray (sizeT tid0) = false) :
    LUA_PostEvent app (.vinteger tid0 :: .vstring name :: rest) =
      (.returned false, app) := by
  unfold LUA_PostEvent
  rw [if_pos (by refine ⟨by simp, rfl⟩)]
  simp only [lua_tointegerAt, Nat.sub_self, List.getElem?_cons_zero, List.getElem?_cons_succ,
    Option.elim, LuaValue.isStringType, Bool.true_eq_false, if_false, hv, Bool.false_eq_true,
    eq_self_iff_true, if_true]

/-- `LUA_PostEvent` with a non-string event name raises `luaL_error` and
changes nothing. -/
theorem LUA_PostEvent_nonstring (app : LUA_Application) (tid0 : Int) (v1 : LuaValue)
    (rest : List LuaValue) (hns : v1.isStringType = false) :
    LUA_PostEvent app (.vinteger tid0 :: v1 :: rest) = (.luaError, app) := by
  unfold LUA_PostEvent
  rw [if_pos (by refine ⟨by simp, rfl⟩)]
  simp [hns]

/-- `LUA_PostEvent` whose guard fails (fewer than two arguments or a
non-integer first argument): pushes `false`, changes nothing. -/
theorem LUA_PostEvent_guard_false (app : LUA_Application) (Stack : List LuaValue)
    (hg : ¬ (2 ≤ Stack.length ∧ (Stack[0]?.elim false LuaValue.lua_isinteger) = true)) :
    LUA_PostEvent app Stack = (.returned false, app) := by
  unfold LUA_PostEvent
  rw [if_neg hg]

/-- Number of occurrences of one lock action in a trace. -/
def countAct (a : LockAction) : List LockAction → Nat
  | [] => 0
  | b :: r => (if b = a then 1 else 0) + countAct a r

/-- Scanner: every event-mutex or state-mutex acquisition in the trace
happens while the registry mutex is held (`d` is the current registry lock
depth). -/
def innerLocksUnderReg : List LockAction → Nat → Bool
  | [], _ => true
  | .lock .registry :: r, d => innerLocksUnderReg r (d + 1)
  | .unlock .registry :: r, d => innerLocksUnderReg r (d - 1)
  | .lock (.eventM _) :: r, d => decide (0 < d) && innerLocksUnderReg r d
  | .lock (.stateM _) :: r, d => decide (0 < d) && innerLocksUnderReg r d
  | .unlock (.eventM _) :: r, d => innerLocksUnderReg r d
  | .unlock (.stateM _) :: r, d => innerLocksUnderReg r d

/-- Scanner: somewhere in the trace an event mutex and a state mutex are
held at the same time (`e`/`s` track whether one is currently held). -/
def existsBothHeldES : List LockAction → Bool → Bool → Bool
  | [], _, _ => false
  | a :: r, e, s =>
    match a with
    | .lock (.eventM _) => (true && s) || existsBothHeldES r true s
    | .unlock (.eventM _) => existsBothHeldES r false s
    | .lock (.stateM _) => (e && true) || existsBothHeldES r e true
    | .unlock (.stateM _) => existsBothHeldES r e false
    | _ => (e && s) || existsBothHeldES r e s

theorem TA_IsValid_lt_cap {α : Type} (arr : TA_Array α) (o : Nat)
    (h : TA_IsValid arr o = true) : o < arr.Capacity := by
  unfold TA_IsValid at h
  simp only [Bool.and_eq_true, bne_iff_ne, decide_eq_true_eq] at h
  exact h.1.2

theorem broadcast_target_some {app : LUA_Application} {off tid : Nat}
    (h : (if TA_IsValid app.InstanceArray off = true then
        TA_GetObject app.InstanceArray off else none) = some tid) :
    TA_IsValid app.InstanceArray off = true ∧
      TA_GetObject app.InstanceArray off = some tid := by
  by_cases hv : TA_IsValid app.InstanceArray off = true
  · rw [if_pos hv] at h
    exact ⟨hv, h⟩
  · rw [if_neg hv] at h
    cases h

/-- In every broadcast-loop trace the per-target event/state mutexes are
acquired while the registry mutex is held, and when the loop terminates
normally the registry lock/unlock pairs balance. -/
theorem LUA_BroadcastLoop_regLocks (Stack : List LuaValue) :
    ∀ (fuel : Nat) (app : LUA_Application) (off : Nat),
      innerLocksUnderReg (LUA_BroadcastLoop app Stack off fuel).1 0 = true ∧
      ((LUA_BroadcastLoop app Stack off fuel).2.isSome = true →
        countAct (.lock .registry) (LUA_BroadcastLoop app Stack off fuel).1 =
          countAct (.unlock .registry) (LUA_BroadcastLoop app Stack off fuel).1) := by
  intro fuel
  induction fuel with
  | zero =>
    intro app off
    exact ⟨rfl, by intro h; simp [LUA_BroadcastLoop] at h⟩
  | succ f ih =>
    intro app off
    by_cases hle : off ≤ TA_GetCapacity app.InstanceArray
    · rcases htgt : (if TA_IsValid app.InstanceArray off = true then
          TA_GetObject app.InstanceArray off else none) with _ | tid
      · have hstep : LUA_BroadcastLoop app Stack off (f + 1) =
            (.lock .registry :: .unlock .registry ::
               (LUA_BroadcastLoop app Stack (off + 1) f).1,
             (LUA_BroadcastLoop app Stack (off + 1) f).2) := by
          conv_lhs => unfold LUA_BroadcastLoop
          rw [if_pos hle, htgt]
        rw [hstep]
        refine ⟨?_, ?_⟩
        · have h1 := (ih app (off + 1)).1
          simp [innerLocksUnderReg, h1]
        · intro hs
          have h2 := (ih app (off + 1)).2 hs
          simp [countAct, h2]
      · rcases hcopy : APP_CopyEventArguments Stack
            ((app.Instances tid).EventBufferReceive) 2 Stack.length with _ | buf
        · have hstep : LUA_BroadcastLoop app Stack off (f + 1) =
              ([.lock .registry, .lock (.eventM off)], none) := by
            conv_lhs => unfold LUA_BroadcastLoop
            rw [if_pos hle]
            simp only [htgt, hcopy]
          rw [hstep]
          exact ⟨by simp [innerLocksUnderReg], by intro h; simp at h⟩
        · have hstep : LUA_BroadcastLoop app Stack off (f + 1) =
              (.lock .registry :: .lock (.eventM off) ::
                 .unlock (.eventM off) :: .lock (.stateM off) ::
                 .unlock (.stateM off) :: .unlock .registry ::
                 (LUA_BroadcastLoop (LUA_BroadcastTarget app tid buf) Stack (off + 1) f).1,
               (LUA_BroadcastLoop (LUA_BroadcastTarget app tid buf) Stack (off + 1) f).2) := by
            conv_lhs => unfold LUA_BroadcastLoop
            rw [if_pos hle]
            simp only [htgt, hcopy]
          rw [hstep]
          refine ⟨?_, ?_⟩
          · have h1 := (ih (LUA_BroadcastTarget app tid buf) (off + 1)).1
            simp [innerLocksUnderReg, h1]
          · intro hs
            have h2 := (ih (LUA_BroadcastTarget app tid buf) (off + 1)).2 hs
            simp [countAct, h2]
    · have hstep : LUA_BroadcastLoop app Stack off (f + 1) =
          ([.lock .registry, .unlock .registry], some app) := by
        conv_lhs => unfold LUA_BroadcastLoop
        rw [if_neg hle]
      rw [hstep]
      exact ⟨by simp [innerLocksUnderReg], by intro _; simp [countAct]⟩

theorem LUA_BroadcastTarget_deliver (app : LUA_Application) (t : Nat)
    (block : List MAIN_Event) :
    LUA_BroadcastTarget app t ((app.Instances t).EventBufferReceive ++ block) =
      APP_DeliverBlock app t block := rfl

/-- The broadcast loop with enough fuel terminates normally, leaves the
registry untouched, appends the encoded block to the receive buffer of
every instance registered at an offset not yet passed (setting its
EVENTS_PENDING bit), and leaves every other instance unchanged.  The
injectivity hypothesis states that distinct registry slots hold distinct
instances, which `TA_AddObject` guarantees for the real registry. -/
theorem LUA_BroadcastLoop_enqueue (v0 : LuaValue) (args : List LuaValue)
    (hsup : ∀ v ∈ args, v.isSupported = true) :
    ∀ (fuel : Nat) (app : LUA_Application) (off : Nat),
      1 ≤ fuel →
      TA_GetCapacity app.InstanceArray + 2 ≤ off + fuel →
      (∀ o1 o2 t, TA_GetObject app.InstanceArray o1 = some t →
        TA_GetObject app.InstanceArray o2 = some t → o1 = o2) →
      ∃ app2,
        (LUA_BroadcastLoop app (v0 :: args) off fuel).2 = some app2 ∧
        app2.InstanceArray = app.InstanceArray ∧
        (∀ t, (∀ o, off ≤ o → TA_IsValid app.InstanceArray o = true →
            TA_GetObject app.InstanceArray o ≠ some t) →
          app2.Instances t = app.Instances t) ∧
        (∀ o t, off ≤ o → TA_IsValid app.InstanceArray o = true →
          TA_GetObject app.InstanceArray o = some t →
          app2.Instances t =
            { app.Instances t with
              EventBufferReceive := (app.Instances t).EventBufferReceive ++ APP_RawBlock args,
              State := APP_BIT_SET (app.Instances t).State INSTANCE_MASK_EVENTS_PENDING }) := by
  intro fuel
  induction fuel with
  | zero =>
    intro app off hpos _ _
    omega
  | succ f ih =>
    intro app off _ hfuel hinj
    by_cases hle : off ≤ TA_GetCapacity app.InstanceArray
    · rcases htgt : (if TA_IsValid app.InstanceArray off = true then
          TA_GetObject app.InstanceArray off else none) with _ | tid
      · -- offset not registered: skip it
        have hstep : LUA_BroadcastLoop app (v0 :: args) off (f + 1) =
            (.lock .registry :: .unlock .registry ::
               (LUA_BroadcastLoop app (v0 :: args) (off + 1) f).1,
             (LUA_BroadcastLoop app (v0 :: args) (off + 1) f).2) := by
          conv_lhs => unfold LUA_BroadcastLoop
          rw [if_pos hle, htgt]
        obtain ⟨app2, h1, h2, h3, h4⟩ := ih app (off + 1) (by omega) (by omega) hinj
        refine ⟨app2, ?_, h2, ?_, ?_⟩
        · rw [hstep]
          exact h1
        · intro t ht
          exact h3 t fun o ho => ht o (by omega)
        · intro o t ho hv hg
          have hne : o ≠ off := by
            intro heq
            subst heq
            rw [if_pos hv, hg] at htgt
            cases htgt
          exact h4 o t (by omega) hv hg
      · -- registered target: enqueue, then continue
        obtain ⟨hv, hg⟩ := broadcast_target_some htgt
        have hcopy := APP_CopyEventArguments_encode_gen v0 args
          ((app.Instances tid).EventBufferReceive) hsup
        have hstep : LUA_BroadcastLoop app (v0 :: args) off (f + 1) =
            (.lock .registry :: .lock (.eventM off) ::
               .unlock (.eventM off) :: .lock (.stateM off) ::
               .unlock (.stateM off) :: .unlock .registry ::
               (LUA_BroadcastLoop (APP_DeliverBlock app tid (APP_RawBlock args))
                 (v0 :: args) (off + 1) f).1,
             (LUA_BroadcastLoop (APP_DeliverBlock app tid (APP_RawBlock args))
               (v0 :: args) (off + 1) f).2) := by
          conv_lhs => unfold LUA_BroadcastLoop
          rw [if_pos hle]
          simp only [htgt, List.length_cons]
          rw [hcopy]
          simp only [LUA_BroadcastTarget_deliver]
        have harr : (APP_DeliverBlock app tid (APP_RawBlock args)).InstanceArray =
            app.InstanceArray := rfl
        obtain ⟨app2, h1, h2, h3, h4⟩ :=
          ih (APP_DeliverBlock app tid (APP_RawBlock args)) (off + 1) (by omega)
            (by rw [harr]; omega) (by rw [harr]; exact hinj)
        rw [harr] at h2 h3 h4
        refine ⟨app2, ?_, h2, ?_, ?_⟩
        · rw [hstep]
          exact h1
        · intro t ht
          have htid : t ≠ tid := by
            intro heq
            exact ht off (by omega) hv (by rw [hg, heq])
          rw [h3 t fun o ho hvo hgo => ht o (by omega) hvo hgo,
            APP_DeliverBlock_other app tid t _ htid]
        · intro o t ho hvo hgo
          by_cases heq : o = off
          · subst heq
            have htid : t = tid := by
              have := hgo.symm.trans hg
              exact (Option.some.inj this)
            subst htid
            have hnone : ∀ o2, o + 1 ≤ o2 → TA_IsValid app.InstanceArray o2 = true →
                TA_GetObject app.InstanceArray o2 ≠ some t := by
              intro o2 ho2 _ hg2
              have := hinj o2 o t hg2 hg
              omega
            rw [h3 t hnone, APP_DeliverBlock_self]
          · have ho2 : off + 1 ≤ o := by omega
            have htid : t ≠ tid := by
              intro heq2
              subst heq2
              have := hinj o off t hgo hg
              omega
            rw [h4 o t ho2 hvo hgo, APP_DeliverBlock_other app tid t _ htid]
    · -- past the capacity: exit iteration
      have hstep : LUA_BroadcastLoop app (v0 :: args) off (f + 1) =
          ([.lock .registry, .unlock .registry], some app) := by
        conv_lhs => unfold LUA_BroadcastLoop
        rw [if_neg hle]
      refine ⟨app, by rw [hstep], rfl, fun t _ => rfl, ?_⟩
      intro o t ho hv _
      have := TA_IsValid_lt_cap app.InstanceArray o hv
      unfold TA_GetCapacity at hle
      omega

/-- `LUA_BroadcastEvent` with a `lua_isstring` second argument and a
supported payload delivers the encoded block to every registered instance
and leaves everything else unchanged. -/
theorem LUA_BroadcastEvent_enqueue (app : LUA_Application) (v0 a1 : LuaValue)
    (rest : List LuaValue)
    (ha1 : a1.lua_isstring = true)
    (hsup : ∀ v ∈ a1 :: rest, v.isSupported = true)
    (hinj : ∀ o1 o2 t, TA_GetObject app.InstanceArray o1 = some t →
      TA_GetObject app.InstanceArray o2 = some t → o1 = o2) :
    ∃ app2,
      (LUA_BroadcastEvent app (v0 :: a1 :: rest)).2 = some app2 ∧
      app2.InstanceArray = app.InstanceArray ∧
      (∀ t, (∀ o, 1 ≤ o → TA_IsValid app.InstanceArray o = true →
          TA_GetObject app.InstanceArray o ≠ some t) →
        app2.Instances t = app.Instances t) ∧
      (∀ o t, 1 ≤ o → TA_IsValid app.InstanceArray o = true →
        TA_GetObject app.InstanceArray o = some t →
        app2.Instances t =
          { app.Instances t with
            EventBufferReceive := (app.Instances t).EventBufferReceive ++
              APP_RawBlock (a1 :: rest),
            State := APP_BIT_SET (app.Instances t).State INSTANCE_MASK_EVENTS_PENDING }) := by
  have hguard : 2 ≤ (v0 :: a1 :: rest).length ∧
      ((v0 :: a1 :: rest)[1]?.elim false LuaValue.lua_isstring) = true := by
    refine ⟨by simp, ?_⟩
    simp [ha1]
  have hloop := LUA_BroadcastLoop_enqueue v0 (a1 :: rest) hsup
    (TA_GetCapacity app.InstanceArray + 2) app 1 (by omega) (by omega) hinj
  unfold LUA_BroadcastEvent
  rw [if_pos hguard]
  exact hloop

/-- A rejected broadcast (fewer than two arguments or a second argument
that `lua_isstring` refuses) performs no locking and changes nothing. -/
theorem LUA_BroadcastEvent_guard_false (app : LUA_Application) (Stack : List LuaValue)
    (hg : ¬ (2 ≤ Stack.length ∧ (Stack[1]?.elim false LuaValue.lua_isstring) = true)) :
    LUA_BroadcastEvent app Stack = ([], some app) := by
  unfold LUA_BroadcastEvent
  rw [if_neg hg]

/-- A sequence of `send` calls issued by one producer, in program order. -/
def LUA_PostSequence (app : LUA_Application) (Stacks : List (List LuaValue)) :
    LUA_Application :=
  Stacks.foldl (fun a st => (LUA_PostEvent a st).2) app

/-- Posting the events `evs` (handler name, payload) to the valid target
`tid0` appends their encoded blocks to the target's receive buffer in
program order and never touches the registry. -/
theorem LUA_PostSequence_buffer (tid0 : Int) :
    ∀ (evs : List (List Nat × List LuaValue)) (app : LUA_Application) (t : Nat),
      TA_IsValid app.InstanceArray (sizeT tid0) = true →
      TA_GetObject app.InstanceArray (sizeT tid0) = some t →
      (∀ e ∈ evs, ∀ v ∈ e.2, v.isSupported = true) →
      (LUA_PostSequence app
          (evs.map fun e => .vinteger tid0 :: .vstring e.1 :: e.2)).InstanceArray =
        app.InstanceArray ∧
      ((LUA_PostSequence app
          (evs.map fun e => .vinteger tid0 :: .vstring e.1 :: e.2)).Instances t).EventBufferReceive =
        (app.Instances t).EventBufferReceive ++
          APP_FlattenBlocks (evs.map fun e => (e.1, e.2.map APP_EncodedParam)) := by
  intro evs
  induction evs with
  | nil =>
    intro app t _ _ _
    exact ⟨rfl, by simp [LUA_PostSequence, APP_FlattenBlocks]⟩
  | cons e evs' ih =>
    intro app t hv hg hsup
    have hpost := LUA_PostEvent_valid app tid0 e.1 e.2 t
      (hsup e (by simp)) hv hg
    have hseq : LUA_PostSequence app
        ((e :: evs').map fun e => .vinteger tid0 :: .vstring e.1 :: e.2) =
        LUA_PostSequence (APP_DeliverBlock app t (APP_EventBlock e.1 (e.2.map APP_EncodedParam)))
          (evs'.map fun e => .vinteger tid0 :: .vstring e.1 :: e.2) := by
      unfold LUA_PostSequence
      simp only [List.map_cons, List.foldl_cons, hpost]
    rw [hseq]
    have harr : (APP_DeliverBlock app t
        (APP_EventBlock e.1 (e.2.map APP_EncodedParam))).InstanceArray = app.InstanceArray := rfl
    obtain ⟨ih1, ih2⟩ := ih (APP_DeliverBlock app t (APP_EventBlock e.1 (e.2.map APP_EncodedParam))) t
      (by rw [harr]; exact hv) (by rw [harr]; exact hg)
      (fun u hu => hsup u (by simp [hu]))
    refine ⟨by rw [ih1, harr], ?_⟩
    rw [ih2, APP_DeliverBlock_self]
    simp only [List.map_cons]
    have hflat : APP_FlattenBlocks ((e.1, e.2.map APP_EncodedParam) ::
        evs'.map fun u => (u.1, u.2.map APP_EncodedParam)) =
        APP_EventBlock e.1 (e.2.map APP_EncodedParam) ++
          APP_FlattenBlocks (evs'.map fun u => (u.1, u.2.map APP_EncodedParam)) := rfl
    rw [hflat]
    simp

/-- `SERVICE_NotifyInstance` with a registered instance at offset 1
delivers the control event block `START(2), STRING, INTEGER, END`. -/
theorem SERVICE_NotifyInstance_deliver (app : LUA_Application) (ename : List Nat)
    (code : Nat) (t : Nat)
    (hv : TA_IsValid app.InstanceArray 1 = true)
    (hg : TA_GetObject app.InstanceArray 1 = some t) :
    SERVICE_NotifyInstance app ename code =
      APP_DeliverBlock app t (APP_EventBlock ename [.paramInteger (code : Int)]) := by
  unfold SERVICE_NotifyInstance
  rw [if_pos hv]
  simp only [hg, APP_EnqueueEventArgument]
  unfold APP_DeliverBlock
  congr 1
  funext i
  by_cases hi : i = t
  · subst hi
    simp [APP_EventBlock]
  · simp [hi]

/-- `APP_SendExitEventToParent` delivers the exit event block
`START(2), STRING(ExitEventName), INTEGER(Offset), END` to the parent. -/
theorem APP_SendExitEventToParent_block (Inst : LUA_Instance) (ename : List Nat)
    (off : Nat) :
    APP_SendExitEventToParent Inst ename off =
      { Inst with
        EventBufferReceive := Inst.EventBufferReceive ++
          APP_EventBlock ename [.paramInteger (off : Int)],
        State := APP_BIT_SET Inst.State INSTANCE_MASK_EVENTS_PENDING } := by
  unfold APP_SendExitEventToParent
  simp [APP_EnqueueEventArgument, APP_EventBlock]

/-- The drain either leaves the state untouched (empty buffer) or clears
exactly the EVENTS_PENDING bit. -/
theorem LUA_ProcessEventsIfNeeded_state (defined : List Nat → Bool)
    (Inst : LUA_Instance) (r : LUA_Instance × List LUA_Dispatch)
    (h : (LUA_ProcessEventsIfNeeded defined Inst).2 = some r) :
    r.1.State = Inst.State ∨
      r.1.State = APP_BIT_CLEAR Inst.State INSTANCE_MASK_EVENTS_PENDING := by
  unfold LUA_ProcessEventsIfNeeded at h
  by_cases hz : Inst.EventBufferReceive.length = 0
  · rw [if_pos hz] at h
    left
    obtain rfl := Option.some.inj h
    rfl
  · rw [if_neg hz] at h
    rcases hloop : LUA_ProcessEventsLoop defined Inst.EventBufferReceive
        Inst.EventBufferReceive.length 1 (Inst.EventBufferReceive.length + 1) with _ | ds
    · simp only [hloop] at h
      cases h
    · simp only [hloop, Option.some.injEq] at h
      right
      rw [← h]

/-- The drain's lock trace: when the receive buffer is empty just the
event-mutex pair, otherwise the state-mutex pair nested inside the
event-mutex pair. -/
theorem LUA_ProcessEventsIfNeeded_trace (defined : List Nat → Bool)
    (Inst : LUA_Instance) :
    (LUA_ProcessEventsIfNeeded defined Inst).1 =
      [.lock (.eventM Inst.Offset), .unlock (.eventM Inst.Offset)] ∨
    (LUA_ProcessEventsIfNeeded defined Inst).1 =
      [.lock (.eventM Inst.Offset), .lock (.stateM Inst.Offset),
       .unlock (.stateM Inst.Offset), .unlock (.eventM Inst.Offset)] := by
  unfold LUA_ProcessEventsIfNeeded
  by_cases hz : Inst.EventBufferReceive.length = 0
  · rw [if_pos hz]
    left
    rfl
  · rw [if_neg hz]
    right
    rcases hloop : LUA_ProcessEventsLoop defined Inst.EventBufferReceive
        Inst.EventBufferReceive.length 1 (Inst.EventBufferReceive.length + 1) with _ | ds <;>
      simp [hloop]

theorem stateBit4_of_and (s : Nat) (h : s &&& 4 ≠ 0) : s.testBit 2 = true := by
  rcases ht : s.testBit 2 with _ | _
  · exfalso
    apply h
    have h2 := Nat.and_two_pow s 2
    norm_num at h2
    rw [ht] at h2
    simpa using h2
  · rfl

theorem and4_of_stateBit (s : Nat) (h : s.testBit 2 = true) : s &&& 4 ≠ 0 := by
  have h2 := Nat.and_two_pow s 2
  norm_num at h2
  rw [h] at h2
  simp at h2
  omega

/-- No single state write clears LOOP_CLOSE_REQUEST. -/
theorem applyWrite_preserves_close (w : StateWrite) (s : Nat) (h : s &&& 4 ≠ 0) :
    StateWrite.applyWrite w s &&& 4 ≠ 0 := by
  have h2 := stateBit4_of_and s h
  cases w with
  | setActive =>
    unfold StateWrite.applyWrite APP_BIT_SET INSTANCE_MASK_ACTIVE
    exact and4_of_stateBit _ (by simp [Nat.testBit_or, h2])
  | setEventsPending =>
    unfold StateWrite.applyWrite APP_BIT_SET INSTANCE_MASK_EVENTS_PENDING
    exact and4_of_stateBit _ (by simp [Nat.testBit_or, h2])
  | clearEventsPending =>
    unfold StateWrite.applyWrite APP_BIT_CLEAR INSTANCE_MASK_EVENTS_PENDING
    refine and4_of_stateBit _ ?_
    rw [show (255 ^^^ 2 : Nat) = 253 from by decide]
    simp [Nat.testBit_and, h2]
    decide
  | setLoopCloseRequest =>
    unfold StateWrite.applyWrite APP_BIT_SET INSTANCE_MASK_LOOP_CLOSE_REQUEST
    exact and4_of_stateBit _ (by simp [Nat.testBit_or, h2])

/-- No sequence of state writes ever clears LOOP_CLOSE_REQUEST. -/
theorem foldWrites_preserves_close (l : List StateWrite) :
    ∀ s, s &&& 4 ≠ 0 →
      (l.foldl (fun a w => StateWrite.applyWrite w a) s) &&& 4 ≠ 0 := by
  induction l with
  | nil => intro s h; exact h
  | cons w l' ih =>
    intro s h
    rw [List.foldl_cons]
    exact ih _ (applyWrite_preserves_close w s h)

theorem and6_ne_zero (s : Nat) (h : s &&& 4 ≠ 0) : s &&& 6 ≠ 0 := by
  have h2 := stateBit4_of_and s h
  intro h0
  have h3 : (s &&& 6).testBit 2 = true := by
    simp [Nat.testBit_and, h2]
    decide
  rw [h0] at h3
  simp [Nat.zero_testBit] at h3

/-- Once LOOP_CLOSE_REQUEST is set, the next event-loop iteration neither
blocks on the state condition nor continues the loop. -/
theorem LUA_RunEventLoopIter_close (defined : List Nat → Bool) (Inst : LUA_Instance)
    (r : LUA_Instance × List LUA_Dispatch × Bool × Bool)
    (hbit : Inst.State &&& INSTANCE_MASK_LOOP_CLOSE_REQUEST ≠ 0)
    (h : LUA_RunEventLoopIter defined Inst = some r) :
    r.2.2.1 = false ∧ r.2.2.2 = false := by
  unfold INSTANCE_MASK_LOOP_CLOSE_REQUEST at hbit
  unfold LUA_RunEventLoopIter at h
  rcases hd : (LUA_ProcessEventsIfNeeded defined Inst).2 with _ | q
  · rw [hd] at h
    cases h
  · rw [hd] at h
    simp only [Option.some.injEq] at h
    have hstate := LUA_ProcessEventsIfNeeded_state defined Inst q hd
    have hbit2 : q.1.State &&& 4 ≠ 0 := by
      rcases hstate with h1 | h1
      · rw [h1]
        exact hbit
      · rw [h1]
        exact applyWrite_preserves_close .clearEventsPending Inst.State hbit
    rw [← h]
    constructor
    · simp only [INSTANCE_MASK_EVENTS_PENDING, INSTANCE_MASK_LOOP_CLOSE_REQUEST]
      rw [show (2 ||| 4 : Nat) = 6 from by decide]
      simp only [beq_eq_false_iff_ne, ne_eq]
      exact and6_ne_zero q.1.State hbit2
    · simp only [INSTANCE_MASK_LOOP_CLOSE_REQUEST]
      simp only [beq_eq_false_iff_ne, ne_eq]
      exact hbit2

/-- A two-slot registry holding one instance identity (10) at offset 1. -/
def exampleRegistry : TA_Array Nat :=
  { Data := [none, some 10], Count := 2, Capacity := 2,
    RemovedOffsets := TQU_CreateQueue 2 }

/-- A two-slot registry holding one instance identity (11) at offset 1. -/
def exampleRegistry2 : TA_Array Nat :=
  { Data := [none, some 11], Count := 2, Capacity := 2,
    RemovedOffsets := TQU_CreateQueue 2 }

/-- A two-slot registry holding no instance. -/
def emptyRegistry : TA_Array Nat :=
  { Data := [none, none], Count := 1, Capacity := 2,
    RemovedOffsets := TQU_CreateQueue 2 }

/-- A fresh instance record at the given registry offset. -/
def exampleInstance (o : Nat) : LUA_Instance :=
  { Offset := o, State := 1, EventBufferReceive := [], EventBufferTemp := [],
    EventHandlerRef := none, WarningFunctionRef := none }

/-- An application with one registered instance (identity 10, offset 1). -/
def exampleApp : LUA_Application :=
  { InstanceArray := exampleRegistry, Instances := fun _ => exampleInstance 1 }

/-- A second one-instance application (identity 11 at offset 1). -/
def exampleApp2 : LUA_Application :=
  { InstanceArray := exampleRegistry2, Instances := fun _ => exampleInstance 1 }

/-- An application whose registry holds no instance at all. -/
def emptyApp : LUA_Application :=
  { InstanceArray := emptyRegistry, Instances := fun _ => exampleInstance 1 }

theorem exampleRegistry_target (o t : Nat)
    (h : TA_GetObject exampleApp.InstanceArray o = some t) : o = 1 ∧ t = 10 := by
  have h2 : TA_GetObject exampleRegistry o = some t := h
  unfold TA_GetObject exampleRegistry at h2
  rcases o with _ | o1
  · simp [List.getD_cons_zero] at h2
  · rcases o1 with _ | o2
    · simp only [List.getD_cons_succ, List.getD_cons_zero, Option.some.injEq] at h2
      exact ⟨rfl, h2.symm⟩
    · simp [List.getD_cons_succ, List.getD_nil] at h2

theorem exampleApp2_target (o t : Nat)
    (h : TA_GetObject exampleApp2.InstanceArray o = some t) : o = 1 ∧ t = 11 := by
  have h2 : TA_GetObject exampleRegistry2 o = some t := h
  unfold TA_GetObject exampleRegistry2 at h2
  rcases o with _ | o1
  · simp [List.getD_cons_zero] at h2
  · rcases o1 with _ | o2
    · simp only [List.getD_cons_succ, List.getD_cons_zero, Option.some.injEq] at h2
      exact ⟨rfl, h2.symm⟩
    · simp [List.getD_cons_succ, List.getD_nil] at h2

theorem exampleApp_inj (o1 o2 t : Nat)
    (h1 : TA_GetObject exampleApp.InstanceArray o1 = some t)
    (h2 : TA_GetObject exampleApp.InstanceArray o2 = some t) : o1 = o2 := by
  rw [(exampleRegistry_target o1 t h1).1, (exampleRegistry_target o2 t h2).1]

theorem exampleApp2_inj (o1 o2 t : Nat)
    (h1 : TA_GetObject exampleApp2.InstanceArray o1 = some t)
    (h2 : TA_GetObject exampleApp2.InstanceArray o2 = some t) : o1 = o2 := by
  rw [(exampleApp2_target o1 t h1).1, (exampleApp2_target o2 t h2).1]

/-- `LUA_PostEvent` on a valid target whose argument copy succeeds: returns
`true` with the target updated to the copied buffer. -/
theorem LUA_PostEvent_copySome (app : LUA_Application) (tid0 : Int) (name : List Nat)
    (rest : List LuaValue) (t : Nat) (buf : List MAIN_Event)
    (hv : TA_IsValid app.InstanceArray (sizeT tid0) = true)
    (hget : TA_GetObject app.InstanceArray (sizeT tid0) = some t)
    (hcopy : APP_CopyEventArguments (.vinteger tid0 :: .vstring name :: rest)
      ((app.Instances t).EventBufferReceive) 2
      (LuaValue.vinteger tid0 :: LuaValue.vstring name :: rest).length = some buf) :
    LUA_PostEvent app (.vinteger tid0 :: .vstring name :: rest) =
      (.returned true, LUA_BroadcastTarget app t buf) := by
  unfold LUA_PostEvent
  rw [if_pos (by refine ⟨by simp, rfl⟩)]
  simp only [lua_tointegerAt, Nat.sub_self, List.getElem?_cons_zero, List.getElem?_cons_succ,
    Option.elim, LuaValue.isStringType, Bool.true_eq_false, if_false, hv, eq_self_iff_true,
    if_true, hget, hcopy]
  rfl

/-- `LUA_PostEvent` on a valid target whose argument copy hits an
unsupported type: the process exits with code 2. -/
theorem LUA_PostEvent_copyNone (app : LUA_Application) (tid0 : Int) (name : List Nat)
    (rest : List LuaValue) (t : Nat)
    (hv : TA_IsValid app.InstanceArray (sizeT tid0) = true)
    (hget : TA_GetObject app.InstanceArray (sizeT tid0) = some t)
    (hcopy : APP_CopyEventArguments (.vinteger tid0 :: .vstring name :: rest)
      ((app.Instances t).EventBufferReceive) 2
      (LuaValue.vinteger tid0 :: LuaValue.vstring name :: rest).length = none) :
    LUA_PostEvent app (.vinteger tid0 :: .vstring name :: rest) = (.procExit 2, app) := by
  unfold LUA_PostEvent
  rw [if_pos (by refine ⟨by simp, rfl⟩)]
  simp only [lua_tointegerAt, Nat.sub_self, List.getElem?_cons_zero, List.getElem?_cons_succ,
    Option.elim, LuaValue.isStringType, Bool.true_eq_false, if_false, hv, eq_self_iff_true,
    if_true, hget, hcopy]

/-- CLAIM C6.  For a `send` call whose first argument is an integer offset
and whose second is a string handler name: the pushed boolean is `true`
exactly when the offset was valid in the registry at the instant of lookup;
a `false` return leaves every receive buffer and state bit unchanged; and
on a valid offset with a supported payload the event block is enqueued to
the looked-up target. -/
theorem C6_post_result (app : LUA_Application) (tid0 : Int) (name : List Nat)
    (rest : List LuaValue) :
    (∀ b, (LUA_PostEvent app (.vinteger tid0 :: .vstring name :: rest)).1 = .returned b →
      (b = true ↔ TA_IsValid app.InstanceArray (sizeT tid0) = true)) ∧
    ((LUA_PostEvent app (.vinteger tid0 :: .vstring name :: rest)).1 = .returned false →
      (LUA_PostEvent app (.vinteger tid0 :: .vstring name :: rest)).2 = app) ∧
    ((∀ v ∈ rest, v.isSupported = true) →
      TA_IsValid app.InstanceArray (sizeT tid0) = true →
      ∃ t, TA_GetObject app.InstanceArray (sizeT tid0) = some t ∧
        LUA_PostEvent app (.vinteger tid0 :: .vstring name :: rest) =
          (.returned true,
           APP_DeliverBlock app t (APP_EventBlock name (rest.map APP_EncodedParam)))) := by
  by_cases hv : TA_IsValid app.InstanceArray (sizeT tid0) = true
  · obtain ⟨t, hget⟩ := TA_GetObject_of_isValid app.InstanceArray (sizeT tid0) hv
    rcases hcopy : APP_CopyEventArguments (.vinteger tid0 :: .vstring name :: rest)
        ((app.Instances t).EventBufferReceive) 2
        (LuaValue.vinteger tid0 :: LuaValue.vstring name :: rest).length with _ | buf
    · have hpe := LUA_PostEvent_copyNone app tid0 name rest t hv hget hcopy
      refine ⟨?_, ?_, ?_⟩
      · intro b hb
        rw [hpe] at hb
        simp at hb
      · intro hb
        rw [hpe] at hb
        simp at hb
      · intro hsup _
        exfalso
        have henc := APP_CopyEventArguments_encode_gen (.vinteger tid0)
          (.vstring name :: rest) ((app.Instances t).EventBufferReceive)
          (by
            intro u hu
            rcases List.mem_cons.mp hu with h | h
            · rw [h]; rfl
            · exact hsup u h)
        rw [show (LuaValue.vinteger tid0 :: LuaValue.vstring name :: rest).length =
          (LuaValue.vstring name :: rest).length + 1 from by simp] at hcopy
        rw [henc] at hcopy
        cases hcopy
    · have hpe := LUA_PostEvent_copySome app tid0 name rest t buf hv hget hcopy
      refine ⟨?_, ?_, ?_⟩
      · intro b hb
        rw [hpe] at hb
        simp only [PostResult.returned.injEq] at hb
        rw [← hb]
        simp [hv]
      · intro hb
        rw [hpe] at hb
        simp at hb
      · intro hsup _
        exact ⟨t, hget, LUA_PostEvent_valid app tid0 name rest t hsup hv hget⟩
  · have hvf : TA_IsValid app.InstanceArray (sizeT tid0) = false := by
      simpa using hv
    have hpe := LUA_PostEvent_invalid app tid0 name rest hvf
    refine ⟨?_, ?_, ?_⟩
    · intro b hb
      rw [hpe] at hb
      simp only [PostResult.returned.injEq] at hb
      rw [← hb]
      simp [hvf]
    · intro _
      rw [hpe]
    · intro _ hvt
      exact absurd hvt hv

/-- Witness for C6 at a concrete one-instance application. -/
theorem C6_post_result_witness :
    ∃ t, TA_GetObject exampleApp.InstanceArray (sizeT 1) = some t ∧
      LUA_PostEvent exampleApp (.vinteger 1 :: .vstring [65] :: []) =
        (.returned true,
         APP_DeliverBlock exampleApp t
           (APP_EventBlock [65] (([] : List LuaValue).map APP_EncodedParam))) :=
  (C6_post_result exampleApp 1 [65] []).2.2 (by simp) (by decide)

/-- CLAIM C2.  FIFO dispatch per target: a producer posting the events
`E1, ..., En` (handler name and payload each) to one valid target with no
intervening drain makes the target's next drain dispatch exactly those
events, in exactly that order. -/
theorem C2_post_order (app : LUA_Application) (tid0 : Int) (t : Nat)
    (evs : List (List Nat × List LuaValue)) (defined : List Nat → Bool)
    (hv : TA_IsValid app.InstanceArray (sizeT tid0) = true)
    (hget : TA_GetObject app.InstanceArray (sizeT tid0) = some t)
    (hsup : ∀ e ∈ evs, ∀ v ∈ e.2, v.isSupported = true)
    (hdef : ∀ e ∈ evs, defined e.1 = true)
    (hempty : (app.Instances t).EventBufferReceive = []) :
    ((LUA_ProcessEventsIfNeeded defined
        ((LUA_PostSequence app
          (evs.map fun e => .vinteger tid0 :: .vstring e.1 :: e.2)).Instances t)).2).map
      Prod.snd =
      some (evs.map fun e => APP_DispatchOfBlock (e.1, e.2.map APP_EncodedParam)) := by
  obtain ⟨_, hbuf⟩ := LUA_PostSequence_buffer tid0 evs app t hv hget hsup
  rw [hempty, List.nil_append] at hbuf
  have hd := LUA_ProcessEventsIfNeeded_blocks defined
    ((LUA_PostSequence app
      (evs.map fun e => .vinteger tid0 :: .vstring e.1 :: e.2)).Instances t)
    (evs.map fun e => (e.1, e.2.map APP_EncodedParam))
    (by
      intro b hb
      simp only [List.mem_map] at hb
      obtain ⟨e, he, rfl⟩ := hb
      refine ⟨?_, hdef e he⟩
      intro x hx
      simp only [List.mem_map] at hx
      obtain ⟨v, hvmem, rfl⟩ := hx
      exact APP_EncodedParam_isParam v (hsup e he v hvmem))
    hbuf
  rw [hd, List.map_map]
  rfl

/-- Witness for C2: two posted events drain in posting order. -/
theorem C2_post_order_witness :
    ((LUA_ProcessEventsIfNeeded (fun _ => true)
        ((LUA_PostSequence exampleApp
          (([([66], [LuaValue.vinteger 5]), ([67], [])]).map
            fun e => .vinteger 1 :: .vstring e.1 :: e.2)).Instances 10)).2).map
      Prod.snd =
      some (([([66], [LuaValue.vinteger 5]), ([67], [])]).map
        fun e => APP_DispatchOfBlock (e.1, e.2.map APP_EncodedParam)) :=
  C2_post_order exampleApp 1 10 [([66], [.vinteger 5]), ([67], [])] (fun _ => true)
    (by decide) (by decide) (by decide) (by decide) rfl

/-- CLAIM C1 (amended).  Producer/consumer block shape.  With a string
event name, each of the four producer paths appends exactly one well-formed
event block — `START(arg_count)`, the `STRING` handler name, the payload
arguments, `END` — to the target receive buffer, and draining a buffer of
well-formed blocks invokes each named handler with `arg_count - 1`
arguments, never a truncated list.  (`LUA_BroadcastEvent`, whose guard is
`lua_isstring`, also accepts a *number* event name and then produces a
block whose first argument is not a `STRING`; this conjunction therefore
covers broadcast only for string names.) -/
theorem C1_event_blocks (app : LUA_Application) (tid0 : Int) (v0 : LuaValue)
    (name ename pname : List Nat) (rest : List LuaValue) (t t1 code off : Nat)
    (Inst Parent : LUA_Instance) (defined : List Nat → Bool)
    (Blocks : List (List Nat × List MAIN_Event))
    (hsup : ∀ v ∈ rest, v.isSupported = true)
    (hv : TA_IsValid app.InstanceArray (sizeT tid0) = true)
    (hget : TA_GetObject app.InstanceArray (sizeT tid0) = some t)
    (hinj : ∀ o1 o2 u, TA_GetObject app.InstanceArray o1 = some u →
      TA_GetObject app.InstanceArray o2 = some u → o1 = o2)
    (hv1 : TA_IsValid app.InstanceArray 1 = true)
    (hget1 : TA_GetObject app.InstanceArray 1 = some t1)
    (hwfB : APP_EventBlocksWF defined Blocks)
    (hbuf : Inst.EventBufferReceive = APP_FlattenBlocks Blocks) :
    APP_IsWellFormedEventBlock (APP_EventBlock name (rest.map APP_EncodedParam)) = true ∧
    LUA_PostEvent app (.vinteger tid0 :: .vstring name :: rest) =
      (.returned true,
       APP_DeliverBlock app t (APP_EventBlock name (rest.map APP_EncodedParam))) ∧
    (∃ app2, (LUA_BroadcastEvent app (v0 :: .vstring name :: rest)).2 = some app2 ∧
      ∀ o u, 1 ≤ o → TA_IsValid app.InstanceArray o = true →
        TA_GetObject app.InstanceArray o = some u →
        app2.Instances u =
          (APP_DeliverBlock app u
            (APP_EventBlock name (rest.map APP_EncodedParam))).Instances u) ∧
    APP_SendExitEventToParent Parent ename off =
      { Parent with
        EventBufferReceive := Parent.EventBufferReceive ++
          APP_EventBlock ename [.paramInteger (off : Int)],
        State := APP_BIT_SET Parent.State INSTANCE_MASK_EVENTS_PENDING } ∧
    SERVICE_NotifyInstance app pname code =
      APP_DeliverBlock app t1 (APP_EventBlock pname [.paramInteger (code : Int)]) ∧
    ((LUA_ProcessEventsIfNeeded defined Inst).2).map Prod.snd =
      some (Blocks.map APP_DispatchOfBlock) := by
  refine ⟨?_, ?_, ?_, ?_, ?_, ?_⟩
  · apply APP_EventBlock_wellFormed
    intro e he
    simp only [List.mem_map] at he
    obtain ⟨v, hvmem, rfl⟩ := he
    exact APP_EncodedParam_isParam v (hsup v hvmem)
  · exact LUA_PostEvent_valid app tid0 name rest t hsup hv hget
  · obtain ⟨app2, h1, _, _, h4⟩ := LUA_BroadcastEvent_enqueue app v0 (.vstring name) rest
      rfl
      (by
        intro u hu
        rcases List.mem_cons.mp hu with h | h
        · rw [h]; rfl
        · exact hsup u h)
      hinj
    rw [APP_RawBlock_cons_string] at h4
    refine ⟨app2, h1, ?_⟩
    intro o u ho hvo hgo
    rw [h4 o u ho hvo hgo, APP_DeliverBlock_self]
  · exact APP_SendExitEventToParent_block Parent ename off
  · exact SERVICE_NotifyInstance_deliver app pname code t1 hv1 hget1
  · exact LUA_ProcessEventsIfNeeded_blocks defined Inst Blocks hwfB hbuf

/-- An instance whose receive buffer holds one well-formed block. -/
def C1Inst : LUA_Instance :=
  { Offset := 1, State := 1,
    EventBufferReceive := APP_FlattenBlocks [([66], [])],
    EventBufferTemp := [], EventHandlerRef := none, WarningFunctionRef := none }

/-- Witness for C1: concrete block well-formedness and a concrete drain. -/
theorem C1_event_blocks_witness :
    APP_IsWellFormedEventBlock
        (APP_EventBlock [65] (([] : List LuaValue).map APP_EncodedParam)) = true ∧
    ((LUA_ProcessEventsIfNeeded (fun _ => true) C1Inst).2).map Prod.snd =
      some (([([66], ([] : List MAIN_Event))]).map APP_DispatchOfBlock) :=
  have h := C1_event_blocks exampleApp 1 .vnil [65] [69] [78] [] 10 10 5 3
    C1Inst (exampleInstance 1) (fun _ => true) [([66], [])]
    (by simp) (by decide) (by decide) exampleApp_inj (by decide) (by decide)
    (by simp [APP_EventBlocksWF]) rfl
  ⟨h.1, h.2.2.2.2.2⟩

/-- Counterexample to C1 as frozen: a broadcast with a *number* event name
(accepted by `lua_isstring`) appends a block whose first argument is not a
`STRING`, so not every enqueued event is well-formed with a string handler
name. -/
theorem C1_counterexample :
    ∃ app2, (LUA_BroadcastEvent exampleApp [.vnil, .vinteger 7]).2 = some app2 ∧
      (app2.Instances 10).EventBufferReceive =
        [.start 1, .paramInteger 7, .eventEnd] ∧
      APP_IsWellFormedEventBlock [.start 1, .paramInteger 7, .eventEnd] = false := by
  obtain ⟨app2, h1, _, _, h4⟩ := LUA_BroadcastEvent_enqueue exampleApp .vnil (.vinteger 7) []
    rfl (by decide) exampleApp_inj
  have h5 := h4 1 10 (by omega) (by decide) (by decide)
  refine ⟨app2, h1, ?_, by decide⟩
  rw [h5]
  rfl

/-- CLAIM C3 (amended).  `LUA_BroadcastEvent` locks the registry mutex once
*per iteration*, not once for the whole fan-out: every target's event/state
mutex acquisition still happens while the registry mutex is held, and on
normal termination the registry lock/unlock pairs balance (one pair per
iteration). -/
theorem C3_broadcast_locking (app : LUA_Application) (Stack : List LuaValue) :
    innerLocksUnderReg (LUA_BroadcastEvent app Stack).1 0 = true ∧
    ((LUA_BroadcastEvent app Stack).2.isSome = true →
      countAct (.lock .registry) (LUA_BroadcastEvent app Stack).1 =
        countAct (.unlock .registry) (LUA_BroadcastEvent app Stack).1) := by
  unfold LUA_BroadcastEvent
  by_cases hg : 2 ≤ Stack.length ∧ (Stack[1]?.elim false LuaValue.lua_isstring) = true
  · rw [if_pos hg]
    exact LUA_BroadcastLoop_regLocks Stack (TA_GetCapacity app.InstanceArray + 2) app 1
  · rw [if_neg hg]
    exact ⟨rfl, fun _ => rfl⟩

/-- Witness for C3 at a concrete broadcast over an empty two-slot registry. -/
theorem C3_broadcast_locking_witness :
    innerLocksUnderReg (LUA_BroadcastEvent emptyApp [.vnil, .vstring [66]]).1 0 = true ∧
    countAct (.lock .registry) (LUA_BroadcastEvent emptyApp [.vnil, .vstring [66]]).1 =
      countAct (.unlock .registry) (LUA_BroadcastEvent emptyApp [.vnil, .vstring [66]]).1 :=
  have h := C3_broadcast_locking emptyApp [.vnil, .vstring [66]]
  ⟨h.1, h.2 (by decide)⟩

/-- Counterexample to C3 as frozen: a broadcast over a two-slot registry
produces three registry lock/unlock pairs — the registry mutex is released
and re-acquired between iterations, not held continuously (a single
critical section would lock it exactly once). -/
theorem C3_counterexample :
    (LUA_BroadcastEvent emptyApp [.vnil, .vstring [65]]).1 =
      [.lock .registry, .unlock .registry, .lock .registry, .unlock .registry,
       .lock .registry, .unlock .registry] ∧
    ¬ countAct (.lock .registry) (LUA_BroadcastEvent emptyApp [.vnil, .vstring [65]]).1 ≤ 1 := by
  decide

/-- CLAIM C4 (amended).  The drain's lock trace: with an empty receive
buffer only the event-mutex pair; otherwise the state mutex is acquired
*while the event mutex is still held* (the event mutex is released only
after EVENTS_PENDING is cleared), so the trace is
`lock event, lock state, unlock state, unlock event`. -/
theorem C4_drain_trace (defined : List Nat → Bool) (Inst : LUA_Instance) :
    (LUA_ProcessEventsIfNeeded defined Inst).1 =
      [.lock (.eventM Inst.Offset), .unlock (.eventM Inst.Offset)] ∨
    (LUA_ProcessEventsIfNeeded defined Inst).1 =
      [.lock (.eventM Inst.Offset), .lock (.stateM Inst.Offset),
       .unlock (.stateM Inst.Offset), .unlock (.eventM Inst.Offset)] :=
  LUA_ProcessEventsIfNeeded_trace defined Inst

/-- An instance with a non-empty (single-token) receive buffer. -/
def C4Inst : LUA_Instance :=
  { Offset := 2, State := 3, EventBufferReceive := [.eventEnd], EventBufferTemp := [],
    EventHandlerRef := none, WarningFunctionRef := none }

/-- Counterexample to C4 as frozen: draining a non-empty buffer holds the
event mutex and the state mutex at the same time. -/
theorem C4_counterexample :
    existsBothHeldES (LUA_ProcessEventsIfNeeded (fun _ => true) C4Inst).1 false false =
      true := by
  decide

/-- CLAIM C5 (amended).  `setwarningfunction` is rebind-friendly: a second
installation releases the previous reference and binds the new function
under a fresh reference without raising.  `seteventhandler` is *not*: once
a handler reference is installed, every further call raises
`luaL_error("EventHandler already set")`; only the first call (no handler
installed, function argument) binds. -/
theorem C5_rebind (Inst : LUA_Instance) (Reg : LuaRefRegistry) (fid : Nat) :
    (∀ r, Inst.WarningFunctionRef = some r →
      LUA_SetWarningFunction Inst Reg (some (.vfunction fid)) =
        ({ Inst with WarningFunctionRef := some Reg.NextRef },
         { NextRef := Reg.NextRef + 1,
           Live := (Reg.NextRef, .vfunction fid) ::
             Reg.Live.filter fun p => p.1 != r })) ∧
    (Inst.EventHandlerRef.isSome = true →
      ∀ a, LUA_SetEventHandler Inst Reg a = .error "EventHandler already set") ∧
    (Inst.EventHandlerRef = none →
      LUA_SetEventHandler Inst Reg (some (.vfunction fid)) =
        .ok ({ Inst with EventHandlerRef := some Reg.NextRef },
          { NextRef := Reg.NextRef + 1,
            Live := (Reg.NextRef, .vfunction fid) :: Reg.Live })) := by
  refine ⟨?_, ?_, ?_⟩
  · intro r hw
    unfold LUA_SetWarningFunction
    simp only [hw]
    rfl
  · intro hh a
    unfold LUA_SetEventHandler
    rw [if_pos hh]
  · intro hn
    unfold LUA_SetEventHandler
    simp only [hn, Option.isSome_none, Bool.false_eq_true, if_false]
    rfl

/-- An instance with both callback references installed. -/
def C5Inst2 : LUA_Instance :=
  { Offset := 1, State := 1, EventBufferReceive := [], EventBufferTemp := [],
    EventHandlerRef := some 0, WarningFunctionRef := some 0 }

/-- A registry with one live reference. -/
def C5Reg : LuaRefRegistry := { NextRef := 5, Live := [(0, .vfunction 9)] }

/-- Witness for C5: concrete rebind of the warning function and concrete
rejection of a second event-handler installation. -/
theorem C5_rebind_witness :
    LUA_SetWarningFunction C5Inst2 C5Reg (some (.vfunction 3)) =
      ({ C5Inst2 with WarningFunctionRef := some 5 },
       { NextRef := 6, Live := [(5, .vfunction 3)] }) ∧
    LUA_SetEventHandler C5Inst2 C5Reg none = .error "EventHandler already set" := by
  have h := C5_rebind C5Inst2 C5Reg 3
  refine ⟨?_, h.2.1 rfl none⟩
  rw [h.1 0 rfl]
  decide

/-- Counterexample to C5 as frozen: after one successful
`seteventhandler`, installing a new handler raises instead of rebinding. -/
theorem C5_counterexample :
    ∃ i2 r2,
      LUA_SetEventHandler (exampleInstance 1) { NextRef := 1, Live := [] }
        (some (.vfunction 1)) = .ok (i2, r2) ∧
      LUA_SetEventHandler i2 r2 (some (.vfunction 2)) =
        .error "EventHandler already set" := by
  refine ⟨_, _, rfl, rfl⟩

/-- An instance with LOOP_CLOSE_REQUEST (and ACTIVE) set and an idle
buffer. -/
def C9Inst : LUA_Instance :=
  { Offset := 1, State := 5, EventBufferReceive := [], EventBufferTemp := [],
    EventHandlerRef := none, WarningFunctionRef := none }

/-- CLAIM C9.  `stoploop` sets LOOP_CLOSE_REQUEST; no state write of the
event subsystem ever clears it; and once it is set, the next event-loop
iteration (drain included) neither blocks on the state condition nor keeps
`Continue` true, so the loop exits. -/
theorem C9_close_request (Inst : LUA_Instance) (writes : List StateWrite)
    (defined : List Nat → Bool) (r : LUA_Instance × List LUA_Dispatch × Bool × Bool) :
    ((LUA_CloseEventLoop Inst).State &&& INSTANCE_MASK_LOOP_CLOSE_REQUEST ≠ 0) ∧
    (Inst.State &&& INSTANCE_MASK_LOOP_CLOSE_REQUEST ≠ 0 →
      (writes.foldl (fun a w => StateWrite.applyWrite w a) Inst.State) &&&
        INSTANCE_MASK_LOOP_CLOSE_REQUEST ≠ 0) ∧
    (Inst.State &&& INSTANCE_MASK_LOOP_CLOSE_REQUEST ≠ 0 →
      LUA_RunEventLoopIter defined Inst = some r →
      r.2.2.1 = false ∧ r.2.2.2 = false) := by
  refine ⟨?_, ?_, ?_⟩
  · show APP_BIT_SET Inst.State INSTANCE_MASK_LOOP_CLOSE_REQUEST &&&
      INSTANCE_MASK_LOOP_CLOSE_REQUEST ≠ 0
    unfold APP_BIT_SET INSTANCE_MASK_LOOP_CLOSE_REQUEST
    apply and4_of_stateBit
    rw [Nat.testBit_or]
    have h4 : Nat.testBit 4 2 = true := by decide
    rw [h4]
    simp
  · intro h
    exact foldWrites_preserves_close writes Inst.State h
  · intro h hiter
    exact LUA_RunEventLoopIter_close defined Inst r h hiter

/-- Witness for C9 at a concrete closing instance. -/
theorem C9_close_request_witness :
    ((LUA_CloseEventLoop C9Inst).State &&& INSTANCE_MASK_LOOP_CLOSE_REQUEST ≠ 0) ∧
    (([StateWrite.setEventsPending, .clearEventsPending, .setActive].foldl
        (fun a w => StateWrite.applyWrite w a) C9Inst.State) &&&
      INSTANCE_MASK_LOOP_CLOSE_REQUEST ≠ 0) ∧
    ((C9Inst, ([] : List LUA_Dispatch), false, false).2.2.1 = false ∧
     (C9Inst, ([] : List LUA_Dispatch), false, false).2.2.2 = false) := by
  have h := C9_close_request C9Inst [.setEventsPending, .clearEventsPending, .setActive]
    (fun _ => true) (C9Inst, [], false, false)
  exact ⟨h.1, h.2.1 (by decide), h.2.2 (by decide) (by decide)⟩

/-- CLAIM C10 (amended).  A broadcast is a silent no-op — empty lock trace,
application unchanged, no result pushed — exactly when it has fewer than
two arguments or `lua_isstring` rejects the second; since `lua_isstring`
also accepts numbers, a numeric event name is *not* rejected and does
enqueue to every registered instance. -/
theorem C10_broadcast_reject (app : LUA_Application) (Stack : List LuaValue)
    (hg : Stack.length < 2 ∨ (Stack[1]?.elim false LuaValue.lua_isstring) = false) :
    LUA_BroadcastEvent app Stack = ([], some app) := by
  apply LUA_BroadcastEvent_guard_false
  intro hc
  rcases hg with h | h
  · omega
  · rw [hc.2] at h
    cases h

/-- Witness for C10: an argument-less broadcast is a no-op. -/
theorem C10_broadcast_reject_witness :
    LUA_BroadcastEvent exampleApp [] = ([], some exampleApp) :=
  C10_broadcast_reject exampleApp [] (Or.inl (by decide))

/-- Counterexample to C10 as frozen: a broadcast whose second argument is a
*number* (not a string value) is not a no-op — the event is enqueued to the
registered instance. -/
theorem C10_counterexample :
    (LuaValue.vnumber 100).isStringType = false ∧
    ∃ app2, (LUA_BroadcastEvent exampleApp2 [.vboolean true, .vnumber 100]).2 = some app2 ∧
      (app2.Instances 11).EventBufferReceive ≠
        (exampleApp2.Instances 11).EventBufferReceive := by
  refine ⟨rfl, ?_⟩
  obtain ⟨app2, h1, _, _, h4⟩ := LUA_BroadcastEvent_enqueue exampleApp2 (.vboolean true)
    (.vnumber 100) [] rfl (by decide) exampleApp2_inj
  have h5 := h4 1 11 (by omega) (by decide) (by decide)
  refine ⟨app2, h1, ?_⟩
  rw [h5]
  decide

/-- Five pushes that force two region doublings (8 to 32 to 64 bytes) and
two key-area doublings (1 to 3 to 7 slots) after an initial `int32` push. -/
def C7Later : List BAOp :=
  [.opUint64 1, .opDouble 2, .opInt64 (-5), .opPointer 99, .opString [65, 66]]

/-- Witness for C7: the first pushed `int32` still round-trips, with its
requested size, after both arrays have been doubled twice. -/
theorem C7_blob_store_roundtrip_witness :
    (BAOp.opInt32 7).retrieve
        (BA_RunOps ((BAOp.opInt32 7).run (BA_NewAllocator 2 8)).1 C7Later)
        ((BAOp.opInt32 7).run (BA_NewAllocator 2 8)).2 = some (BAOp.opInt32 7).pushedVal ∧
    (BA_GetBlob (BA_RunOps ((BAOp.opInt32 7).run (BA_NewAllocator 2 8)).1 C7Later)
        ((BAOp.opInt32 7).run (BA_NewAllocator 2 8)).2).map Prod.snd =
      some (BAOp.opInt32 7).reqSize ∧
    (BA_RunOps ((BAOp.opInt32 7).run (BA_NewAllocator 2 8)).1 C7Later).StoreSizeInBytes = 64 ∧
    (BA_RunOps ((BAOp.opInt32 7).run (BA_NewAllocator 2 8)).1 C7Later).MaxBlobCount = 7 ∧
    (BA_NewAllocator 2 8).StoreSizeInBytes = 8 ∧
    (BA_NewAllocator 2 8).MaxBlobCount = 1 := by
  have h := C7_blob_store_roundtrip (BA_NewAllocator 2 8) (by decide) (.opInt32 7)
    (by decide) C7Later
  exact ⟨h.1, h.2, by decide, by decide, by decide, by decide⟩

/-- A four-slot registry whose free-offset queue holds offset 1 (the oldest
removed offset), with an instance still stored at offset 2. -/
def C8Queue : TQU_Queue :=
  { Data := [1, 0, 0, 0], Head := 0, Tail := 1, Count := 1, Capacity := 4 }

/-- The C8 witness registry: offset 1 pending reuse, offset 2 occupied. -/
def C8Arr : TA_Array Nat :=
  { Data := [none, none, some 10, none], Count := 3, Capacity := 4,
    RemovedOffsets := C8Queue }

/-- Witness for C8: a remove enqueues at the back, the next add returns the
oldest removed offset and consumes it. -/
theorem C8_registry_fifo_reuse_witness :
    TA_RemovedPending (TA_RemoveObject C8Arr 2) = TA_RemovedPending C8Arr ++ [2] ∧
    (TA_AddObject C8Arr 77).1 = 1 ∧
    TA_RemovedPending (TA_AddObject C8Arr 77).2 = [] := by
  have h := C8_registry_fifo_reuse
  have h2 := (h.2 C8Arr 77 (by decide)).2 1 [] (by decide)
  exact ⟨h.1 C8Arr 2 (by decide) (by decide), h2.1, h2.2⟩
